import Mathlib

/-!
Verification of the streaming trading-analytics pipeline
(tick-to-bar aggregation, analytics, alerting, backtest).

Shallow embedding conventions:
* Python `datetime` values are modelled as `Nat` microseconds since the epoch;
  `datetime.replace(...)` field-zeroing becomes modular arithmetic.
* Python/pandas floats are modelled as `Rat`.  Where the source relies on
  IEEE special values (NaN propagation from `pandas.diff`/`rolling`, the
  `inf` produced by division by zero), the embedding makes those code paths
  explicit branches, documented at each definition.
* The SQLite tick table is an append-only `List Tick`; `ORDER BY timestamp`
  is the stable `List.insertionSort` on the timestamp key (SQLite enumerates
  rows of this table in rowid = insertion order).
* Python dicts that are keyed collections become association lists preserving
  insertion order, matching dict iteration order.
-/

/-! ## Time model and bucket computation (storage.py `_resample_to_ohlc`) -/

/-- Microseconds in one second. -/
def usPerSecond : Nat := 1000000

/-- Microseconds in one minute. -/
def usPerMinute : Nat := 60000000

/-- The three configured timeframes of `DatabaseManager.update_ohlc`. -/
inductive Timeframe where
  | t1s
  | t1m
  | t5m
deriving DecidableEq, Repr

/-- Bucket length in seconds: the `timeframes` dict of `update_ohlc`. -/
def tfSeconds : Timeframe → Nat
  | .t1s => 1
  | .t1m => 60
  | .t5m => 300

/-- Bucket length in microseconds. -/
def tfDurationUs (tf : Timeframe) : Nat := tfSeconds tf * usPerSecond

/-- `datetime.replace(microsecond=0)`: zero the sub-second part. -/
def secondFloor (t : Nat) : Nat := t - t % usPerSecond

/-- `datetime.replace(second=0, microsecond=0)`: zero the sub-minute part. -/
def minuteFloor (t : Nat) : Nat := t - t % usPerMinute

/-- `datetime.minute`: the minute component, 0..59. -/
def minuteOf (t : Nat) : Nat := t / usPerMinute % 60

/-- `datetime.replace(minute=m)`: substitute the minute component. -/
def setMinute (t m : Nat) : Nat := t - minuteOf t * usPerMinute + m * usPerMinute

/-- Bucket start computed by `_resample_to_ohlc`: minute floor first, then
for `1s` the second floor of the original time, for `5m` the minute floored
to the lower multiple of 5. -/
def bucketStart (tf : Timeframe) (t : Nat) : Nat :=
  match tf with
  | .t1s => secondFloor t
  | .t1m => minuteFloor t
  | .t5m =>
    let b := minuteFloor t
    setMinute b (minuteOf b / 5 * 5)

/-- The bucket start is the multiple-of-duration floor of the tick time:
aligned to the timeframe duration and containing the tick timestamp. -/
theorem bucketStart_floor (tf : Timeframe) (t : Nat) :
    bucketStart tf t % tfDurationUs tf = 0 ∧
    bucketStart tf t ≤ t ∧ t < bucketStart tf t + tfDurationUs tf := by
  cases tf <;>
    simp only [bucketStart, tfDurationUs, tfSeconds, secondFloor, minuteFloor,
      setMinute, minuteOf, usPerSecond, usPerMinute] <;>
    omega

/-! ## Tick store and OHLC resampling (storage.py) -/

/-- A row of the `ticks` table, as inserted by `insert_tick`.  `trade_id` is
never read back by the covered code and is omitted. -/
structure Tick where
  ts : Nat
  symbol : String
  price : Rat
  quantity : Rat
deriving DecidableEq, Repr

/-- Timestamp ordering used by the `ORDER BY timestamp` clause. -/
def tsLe (a b : Tick) : Prop := a.ts ≤ b.ts

instance : DecidableRel tsLe := fun a b => Nat.decLe a.ts b.ts

instance : IsTotal Tick tsLe := ⟨fun a b => Nat.le_total a.ts b.ts⟩

instance : IsTrans Tick tsLe := ⟨fun _ _ _ h1 h2 => Nat.le_trans h1 h2⟩

/-- The WHERE clause of the bucket query:
`symbol = ? AND timestamp >= bucket_start AND timestamp < bucket_end`. -/
def bucketFilter (symbol : String) (bs be : Nat) (x : Tick) : Bool :=
  x.symbol == symbol && bs ≤ x.ts && x.ts < be

/-- The `ticks` rows selected for one bucket, in `ORDER BY timestamp` order
(stable with respect to insertion order). -/
def bucketQuery (store : List Tick) (symbol : String) (bs be : Nat) : List Tick :=
  List.insertionSort tsLe (store.filter (bucketFilter symbol bs be))

/-- `pandas.Series.max` over a nonempty price column (0 is never reached:
resampling only evaluates it on nonempty frames). -/
def listMax : List Rat → Rat
  | [] => 0
  | a :: rest => rest.foldl max a

/-- `pandas.Series.min`, as `listMax`. -/
def listMin : List Rat → Rat
  | [] => 0
  | a :: rest => rest.foldl min a

/-- A row of the `ohlc` table. -/
structure Bar where
  bucketStart : Nat
  symbol : String
  timeframe : Timeframe
  openPrice : Rat
  highPrice : Rat
  lowPrice : Rat
  closePrice : Rat
  volume : Rat
deriving DecidableEq, Repr

/-- `_resample_to_ohlc`: compute the bucket of `currentTime`, query the
bucket's ticks in timestamp order, and build the bar (`open` = first row,
`close` = last row, `high`/`low` = extrema, `volume` = quantity sum).
Returns `none` for an empty bucket (the source then writes nothing). -/
def resampleToOhlc (store : List Tick) (symbol : String) (tf : Timeframe)
    (currentTime : Nat) : Option Bar :=
  let bs := bucketStart tf currentTime
  let be := bs + tfDurationUs tf
  match bucketQuery store symbol bs be with
  | [] => none
  | r :: rest =>
    some
      { bucketStart := bs
        symbol := symbol
        timeframe := tf
        openPrice := r.price
        highPrice := listMax ((r :: rest).map (·.price))
        lowPrice := listMin ((r :: rest).map (·.price))
        closePrice := ((r :: rest).getLast (List.cons_ne_nil r rest)).price
        volume := ((r :: rest).map (·.quantity)).sum }

/-- The `ohlc` table, one row per (symbol, timeframe, bucketStart) as
guaranteed by `INSERT OR REPLACE` against the UNIQUE constraint. -/
def barKeyMatches (b : Bar) (symbol : String) (tf : Timeframe) (bs : Nat) : Bool :=
  b.symbol == symbol && b.timeframe == tf && b.bucketStart == bs

/-- `INSERT OR REPLACE INTO ohlc`: drop any row with the same unique key,
then append the new row. -/
def upsertBar (rows : List Bar) (b : Bar) : List Bar :=
  rows.filter (fun x => !barKeyMatches x b.symbol b.timeframe b.bucketStart) ++ [b]

/-- `update_ohlc`: recompute and upsert the bar of `t` for each timeframe. -/
def updateOhlc (ticks : List Tick) (ohlc : List Bar) (symbol : String) (t : Nat) :
    List Bar :=
  [Timeframe.t1s, Timeframe.t1m, Timeframe.t5m].foldl
    (fun acc tf =>
      match resampleToOhlc ticks symbol tf t with
      | none => acc
      | some b => upsertBar acc b)
    ohlc

/-- The database state: append-only tick log plus the upsertable bar table. -/
structure DbState where
  ticks : List Tick
  ohlc : List Bar
deriving DecidableEq, Repr

/-- `insert_tick`: append the tick, then `update_ohlc` for its symbol and
timestamp. -/
def insertTick (st : DbState) (tick : Tick) : DbState :=
  let ticks' := st.ticks ++ [tick]
  { ticks := ticks', ohlc := updateOhlc ticks' st.ohlc tick.symbol tick.ts }

/-- Read the stored bar for a key (the row kept unique by the upsert). -/
def lookupBar (st : DbState) (symbol : String) (tf : Timeframe) (bs : Nat) :
    Option Bar :=
  (st.ohlc.filter (fun b => barKeyMatches b symbol tf bs)).head?


/-! ## First/last rows of the timestamp-sorted bucket query

`open` and `close` are the first and last rows of the sorted query.  We
characterize them through `firstMinTick` / `lastMaxTick`: the earliest-by-
timestamp row (first occurrence on ties) and the latest-by-timestamp row
(last occurrence on ties), matching the stability of the insertion sort. -/

/-- Merge step for the earliest row: earlier timestamp wins, ties keep the
left (earlier-in-list) argument. -/
def combineFirst (t : Tick) (o : Option Tick) : Option Tick :=
  match o with
  | none => some t
  | some v => if t.ts ≤ v.ts then some t else some v

/-- The earliest-timestamp row of a list, first occurrence on ties. -/
def firstMinTick (l : List Tick) : Option Tick := l.foldr combineFirst none

/-- Merge step for the latest row: later timestamp wins, ties keep the
right (later-in-list) argument. -/
def combineLast (t : Tick) (o : Option Tick) : Option Tick :=
  match o with
  | none => some t
  | some v => if t.ts ≤ v.ts then some v else some t

/-- The latest-timestamp row of a list, last occurrence on ties. -/
def lastMaxTick (l : List Tick) : Option Tick := l.foldr combineLast none

theorem combineFirst_ne_none (t : Tick) (o : Option Tick) :
    combineFirst t o ≠ none := by
  cases o with
  | none => simp [combineFirst]
  | some v =>
    simp only [combineFirst]
    split <;> simp

theorem combineLast_ne_none (t : Tick) (o : Option Tick) :
    combineLast t o ≠ none := by
  cases o with
  | none => simp [combineLast]
  | some v =>
    simp only [combineLast]
    split <;> simp

theorem firstMinTick_eq_none {l : List Tick} (h : firstMinTick l = none) :
    l = [] := by
  cases l with
  | nil => rfl
  | cons a r => exact absurd h (combineFirst_ne_none a (firstMinTick r))

theorem head?_orderedInsert (t : Tick) (s : List Tick) :
    (List.orderedInsert tsLe t s).head? = combineFirst t s.head? := by
  cases s with
  | nil => rfl
  | cons b l =>
    by_cases h : tsLe t b
    · rw [List.orderedInsert_of_le tsLe l h]
      have h' : t.ts ≤ b.ts := h
      simp [combineFirst, h']
    · have hrw : List.orderedInsert tsLe t (b :: l) = b :: List.orderedInsert tsLe t l := by
        simp only [List.orderedInsert]
        rw [if_neg h]
      have h' : ¬ t.ts ≤ b.ts := h
      rw [hrw]
      simp [combineFirst, h']

theorem head?_insertionSort (l : List Tick) :
    (List.insertionSort tsLe l).head? = firstMinTick l := by
  induction l with
  | nil => rfl
  | cons t rest ih =>
    simp only [List.insertionSort, head?_orderedInsert, ih]
    rfl

theorem getLast?_cons_of_ne_nil {α : Type} (a : α) {l : List α} (h : l ≠ []) :
    (a :: l).getLast? = l.getLast? := by
  cases l with
  | nil => exact absurd rfl h
  | cons b m => simp [List.getLast?_cons_cons]

theorem mem_of_getLast? {α : Type} {l : List α} {a : α} (h : l.getLast? = some a) :
    a ∈ l := by
  induction l with
  | nil => simp at h
  | cons b m ih =>
    cases m with
    | nil => simp_all
    | cons c k =>
      rw [List.getLast?_cons_cons] at h
      exact List.mem_cons_of_mem b (ih h)

theorem getLast?_orderedInsert (t : Tick) (s : List Tick)
    (hs : List.Sorted tsLe s) :
    (List.orderedInsert tsLe t s).getLast? = combineLast t s.getLast? := by
  induction s with
  | nil => rfl
  | cons b l ih =>
    by_cases h : tsLe t b
    · rw [List.orderedInsert_of_le tsLe l h]
      rw [getLast?_cons_of_ne_nil t (List.cons_ne_nil b l)]
      cases hlast : (b :: l).getLast? with
      | none => simp at hlast
      | some u =>
        have hu : u ∈ b :: l := mem_of_getLast? hlast
        have hbu : tsLe b u := by
          rcases List.mem_cons.mp hu with h1 | h1
          · subst h1; exact Nat.le_refl _
          · exact List.rel_of_sorted_cons hs u h1
        have htu : t.ts ≤ u.ts := Nat.le_trans h hbu
        simp [combineLast, htu]
    · have hrw : List.orderedInsert tsLe t (b :: l) = b :: List.orderedInsert tsLe t l := by
        simp only [List.orderedInsert]
        rw [if_neg h]
      rw [hrw]
      have hne : List.orderedInsert tsLe t l ≠ [] := by
        intro hcontra
        have := List.orderedInsert_length tsLe l t
        rw [hcontra] at this
        simp at this
      rw [getLast?_cons_of_ne_nil b hne, ih hs.of_cons]
      have h' : ¬ t.ts ≤ b.ts := h
      cases l with
      | nil => simp [combineLast, h']
      | cons c k => rw [List.getLast?_cons_cons]

theorem getLast?_insertionSort (l : List Tick) :
    (List.insertionSort tsLe l).getLast? = lastMaxTick l := by
  induction l with
  | nil => rfl
  | cons t rest ih =>
    simp only [List.insertionSort]
    rw [getLast?_orderedInsert t _ (List.sorted_insertionSort tsLe rest), ih]
    rfl

theorem firstMinTick_spec (l : List Tick) :
    ∀ u, firstMinTick l = some u → u ∈ l ∧ ∀ x ∈ l, u.ts ≤ x.ts := by
  induction l with
  | nil => intro u h; simp [firstMinTick] at h
  | cons t rest ih =>
    intro u h
    have hstep : firstMinTick (t :: rest) = combineFirst t (firstMinTick rest) := rfl
    rw [hstep] at h
    cases hrest : firstMinTick rest with
    | none =>
      have hnil : rest = [] := firstMinTick_eq_none hrest
      subst hnil
      rw [hrest] at h
      simp only [combineFirst] at h
      rw [Option.some.injEq] at h
      subst h
      exact ⟨List.mem_singleton.mpr rfl, by simp⟩
    | some v =>
      rw [hrest] at h
      obtain ⟨hv, hvmin⟩ := ih v hrest
      simp only [combineFirst] at h
      by_cases hle : t.ts ≤ v.ts
      · rw [if_pos hle, Option.some.injEq] at h
        subst h
        refine ⟨List.mem_cons_self _ _, ?_⟩
        intro x hx
        rcases List.mem_cons.mp hx with h1 | h1
        · subst h1; exact Nat.le_refl _
        · exact Nat.le_trans hle (hvmin x h1)
      · rw [if_neg hle, Option.some.injEq] at h
        subst h
        refine ⟨List.mem_cons_of_mem _ hv, ?_⟩
        intro x hx
        rcases List.mem_cons.mp hx with h1 | h1
        · subst h1; exact Nat.le_of_lt (Nat.lt_of_not_le hle)
        · exact hvmin x h1

theorem lastMaxTick_spec (l : List Tick) :
    ∀ u, lastMaxTick l = some u → u ∈ l ∧ ∀ x ∈ l, x.ts ≤ u.ts := by
  induction l with
  | nil => intro u h; simp [lastMaxTick] at h
  | cons t rest ih =>
    intro u h
    have hstep : lastMaxTick (t :: rest) = combineLast t (lastMaxTick rest) := rfl
    rw [hstep] at h
    cases hrest : lastMaxTick rest with
    | none =>
      have hnil : rest = [] := by
        cases rest with
        | nil => rfl
        | cons a r => exact absurd hrest (combineLast_ne_none a (lastMaxTick r))
      subst hnil
      rw [hrest] at h
      simp only [combineLast] at h
      rw [Option.some.injEq] at h
      subst h
      exact ⟨List.mem_singleton.mpr rfl, by simp⟩
    | some v =>
      rw [hrest] at h
      obtain ⟨hv, hvmax⟩ := ih v hrest
      simp only [combineLast] at h
      by_cases hle : t.ts ≤ v.ts
      · rw [if_pos hle, Option.some.injEq] at h
        subst h
        refine ⟨List.mem_cons_of_mem _ hv, ?_⟩
        intro x hx
        rcases List.mem_cons.mp hx with h1 | h1
        · subst h1; exact hle
        · exact hvmax x h1
      · rw [if_neg hle, Option.some.injEq] at h
        subst h
        refine ⟨List.mem_cons_self _ _, ?_⟩
        intro x hx
        rcases List.mem_cons.mp hx with h1 | h1
        · subst h1; exact Nat.le_refl _
        · exact Nat.le_trans (hvmax x h1) (Nat.le_of_lt (Nat.lt_of_not_le hle))

/-! ## Extrema of a nonempty column -/

theorem foldl_max_mem (rest : List Rat) : ∀ a : Rat, rest.foldl max a ∈ a :: rest := by
  induction rest with
  | nil => intro a; simp
  | cons b r ih =>
    intro a
    rw [List.foldl_cons]
    rcases List.mem_cons.mp (ih (max a b)) with h1 | h1
    · rw [h1]
      rcases max_choice a b with h2 | h2 <;> rw [h2] <;> simp
    · exact List.mem_cons_of_mem _ (List.mem_cons_of_mem _ h1)

theorem le_foldl_max (rest : List Rat) :
    ∀ a x : Rat, x ∈ a :: rest → x ≤ rest.foldl max a := by
  induction rest with
  | nil => intro a x hx; simp at hx; simp [hx]
  | cons b r ih =>
    intro a x hx
    rw [List.foldl_cons]
    rcases List.mem_cons.mp hx with h1 | h1
    · subst h1
      exact le_trans (le_max_left x b) (ih (max x b) (max x b) (List.mem_cons_self _ _))
    · rcases List.mem_cons.mp h1 with h2 | h2
      · subst h2
        exact le_trans (le_max_right a x) (ih (max a x) (max a x) (List.mem_cons_self _ _))
      · exact ih (max a b) x (List.mem_cons_of_mem _ h2)

theorem foldl_min_mem (rest : List Rat) : ∀ a : Rat, rest.foldl min a ∈ a :: rest := by
  induction rest with
  | nil => intro a; simp
  | cons b r ih =>
    intro a
    rw [List.foldl_cons]
    rcases List.mem_cons.mp (ih (min a b)) with h1 | h1
    · rw [h1]
      rcases min_choice a b with h2 | h2 <;> rw [h2] <;> simp
    · exact List.mem_cons_of_mem _ (List.mem_cons_of_mem _ h1)

theorem foldl_min_le (rest : List Rat) :
    ∀ a x : Rat, x ∈ a :: rest → rest.foldl min a ≤ x := by
  induction rest with
  | nil => intro a x hx; simp at hx; simp [hx]
  | cons b r ih =>
    intro a x hx
    rw [List.foldl_cons]
    rcases List.mem_cons.mp hx with h1 | h1
    · subst h1
      exact le_trans (ih (min x b) (min x b) (List.mem_cons_self _ _)) (min_le_left x b)
    · rcases List.mem_cons.mp h1 with h2 | h2
      · subst h2
        exact le_trans (ih (min a x) (min a x) (List.mem_cons_self _ _)) (min_le_right a x)
      · exact ih (min a b) x (List.mem_cons_of_mem _ h2)

theorem listMax_mem (a : Rat) (rest : List Rat) : listMax (a :: rest) ∈ a :: rest :=
  foldl_max_mem rest a

theorem le_listMax (a : Rat) (rest : List Rat) (x : Rat) (hx : x ∈ a :: rest) :
    x ≤ listMax (a :: rest) :=
  le_foldl_max rest a x hx

theorem listMin_mem (a : Rat) (rest : List Rat) : listMin (a :: rest) ∈ a :: rest :=
  foldl_min_mem rest a

theorem listMin_le (a : Rat) (rest : List Rat) (x : Rat) (hx : x ∈ a :: rest) :
    listMin (a :: rest) ≤ x :=
  foldl_min_le rest a x hx

/-! ## C1: the produced bar summarizes exactly its bucket -/

/-- Spec-side wording of membership in a bucket: stored for this symbol with
timestamp in the half-open interval. -/
def InBucket (symbol : String) (bs be : Nat) (x : Tick) : Prop :=
  x.symbol = symbol ∧ bs ≤ x.ts ∧ x.ts < be

instance (symbol : String) (bs be : Nat) (x : Tick) :
    Decidable (InBucket symbol bs be x) :=
  inferInstanceAs (Decidable (_ ∧ _ ∧ _))

theorem bucketFilter_iff (symbol : String) (bs be : Nat) (x : Tick) :
    bucketFilter symbol bs be x = true ↔ InBucket symbol bs be x := by
  simp [bucketFilter, InBucket, and_assoc]

theorem bucketFilter_eq_decide (symbol : String) (bs be : Nat) (x : Tick) :
    bucketFilter symbol bs be x = decide (InBucket symbol bs be x) := by
  by_cases hx : InBucket symbol bs be x
  · simp [hx, (bucketFilter_iff symbol bs be x).mpr hx]
  · simp only [hx, decide_False]
    cases hb : bucketFilter symbol bs be x
    · rfl
    · exact absurd ((bucketFilter_iff symbol bs be x).mp hb) hx

/-- Spec-side statement of C1, written from the spec's words: the bar's
bucket start is the duration-aligned floor of the tick time, and
open/high/low/close/volume are the first/extrema/last price and quantity sum
of exactly the stored ticks of that symbol whose timestamp lies in
`[bucket_start, bucket_start + D)`, taken in timestamp order. -/
def BarMatchesSpec (store : List Tick) (symbol : String) (tf : Timeframe)
    (t : Nat) (bar : Bar) : Prop :=
  bar.symbol = symbol ∧
  bar.timeframe = tf ∧
  bar.bucketStart % tfDurationUs tf = 0 ∧
  bar.bucketStart ≤ t ∧ t < bar.bucketStart + tfDurationUs tf ∧
  (∃ u ∈ store, InBucket symbol bar.bucketStart (bar.bucketStart + tfDurationUs tf) u ∧
    bar.openPrice = u.price ∧
    ∀ x ∈ store,
      InBucket symbol bar.bucketStart (bar.bucketStart + tfDurationUs tf) x → u.ts ≤ x.ts) ∧
  (∃ u ∈ store, InBucket symbol bar.bucketStart (bar.bucketStart + tfDurationUs tf) u ∧
    bar.closePrice = u.price ∧
    ∀ x ∈ store,
      InBucket symbol bar.bucketStart (bar.bucketStart + tfDurationUs tf) x → x.ts ≤ u.ts) ∧
  ((∀ x ∈ store,
      InBucket symbol bar.bucketStart (bar.bucketStart + tfDurationUs tf) x →
        x.price ≤ bar.highPrice) ∧
    ∃ u ∈ store, InBucket symbol bar.bucketStart (bar.bucketStart + tfDurationUs tf) u ∧
      bar.highPrice = u.price) ∧
  ((∀ x ∈ store,
      InBucket symbol bar.bucketStart (bar.bucketStart + tfDurationUs tf) x →
        bar.lowPrice ≤ x.price) ∧
    ∃ u ∈ store, InBucket symbol bar.bucketStart (bar.bucketStart + tfDurationUs tf) u ∧
      bar.lowPrice = u.price) ∧
  bar.volume =
    ((store.filter
        (fun x =>
          decide (InBucket symbol bar.bucketStart (bar.bucketStart + tfDurationUs tf) x))).map
      (·.quantity)).sum

/-- C1: for every timeframe, stored tick sequence, symbol and tick time, the
bar produced by `_resample_to_ohlc` has its bucket start aligned to a
multiple of the timeframe duration (the floor of the tick time), and its
open/high/low/close/volume are the first price, maximum price, minimum
price, last price and quantity sum of exactly the stored ticks of that
symbol with timestamp in `[bucket_start, bucket_start + D)`, taken in
timestamp order. -/
theorem c1_resample_matchesSpec (store : List Tick) (symbol : String)
    (tf : Timeframe) (t : Nat) (bar : Bar)
    (h : resampleToOhlc store symbol tf t = some bar) :
    BarMatchesSpec store symbol tf t bar := by
  obtain ⟨hal, hlo, hhi⟩ := bucketStart_floor tf t
  cases hq : bucketQuery store symbol (bucketStart tf t)
      (bucketStart tf t + tfDurationUs tf) with
  | nil =>
    have h' : resampleToOhlc store symbol tf t = none := by
      simp only [resampleToOhlc]
      rw [hq]
    rw [h'] at h
    exact absurd h (by simp)
  | cons r rest =>
    have h' : resampleToOhlc store symbol tf t =
        some
          { bucketStart := bucketStart tf t
            symbol := symbol
            timeframe := tf
            openPrice := r.price
            highPrice := listMax ((r :: rest).map (·.price))
            lowPrice := listMin ((r :: rest).map (·.price))
            closePrice := ((r :: rest).getLast (List.cons_ne_nil r rest)).price
            volume := ((r :: rest).map (·.quantity)).sum } := by
      simp only [resampleToOhlc]
      rw [hq]
    rw [h'] at h
    rw [Option.some.injEq] at h
    subst h
    have hperm : List.Perm (r :: rest)
        (store.filter (bucketFilter symbol (bucketStart tf t)
          (bucketStart tf t + tfDurationUs tf))) := by
      rw [← hq]
      exact List.perm_insertionSort tsLe _
    have hmem : ∀ x : Tick, x ∈ r :: rest ↔
        (x ∈ store ∧ InBucket symbol (bucketStart tf t)
          (bucketStart tf t + tfDurationUs tf) x) := by
      intro x
      rw [hperm.mem_iff, List.mem_filter, bucketFilter_iff]
    have hfm : firstMinTick (store.filter (bucketFilter symbol (bucketStart tf t)
        (bucketStart tf t + tfDurationUs tf))) = some r := by
      rw [← head?_insertionSort]
      show (bucketQuery store symbol (bucketStart tf t)
        (bucketStart tf t + tfDurationUs tf)).head? = some r
      rw [hq]
      rfl
    obtain ⟨hrF, hrmin⟩ := firstMinTick_spec _ r hfm
    have hrIn : r ∈ store ∧ InBucket symbol (bucketStart tf t)
        (bucketStart tf t + tfDurationUs tf) r := by
      have := List.mem_filter.mp hrF
      exact ⟨this.1, (bucketFilter_iff _ _ _ _).mp this.2⟩
    have hminStore : ∀ x ∈ store, InBucket symbol (bucketStart tf t)
        (bucketStart tf t + tfDurationUs tf) x → r.ts ≤ x.ts := by
      intro x hx hbx
      exact hrmin x (List.mem_filter.mpr ⟨hx, (bucketFilter_iff _ _ _ _).mpr hbx⟩)
    have hlast? : (r :: rest).getLast? =
        some ((r :: rest).getLast (List.cons_ne_nil r rest)) :=
      List.getLast?_eq_getLast _ _
    have hlm : lastMaxTick (store.filter (bucketFilter symbol (bucketStart tf t)
        (bucketStart tf t + tfDurationUs tf))) =
        some ((r :: rest).getLast (List.cons_ne_nil r rest)) := by
      rw [← getLast?_insertionSort]
      show (bucketQuery store symbol (bucketStart tf t)
        (bucketStart tf t + tfDurationUs tf)).getLast? = _
      rw [hq]
      exact hlast?
    obtain ⟨hcF, hcmax⟩ := lastMaxTick_spec _ _ hlm
    have hcIn : (r :: rest).getLast (List.cons_ne_nil r rest) ∈ store ∧
        InBucket symbol (bucketStart tf t)
          (bucketStart tf t + tfDurationUs tf)
          ((r :: rest).getLast (List.cons_ne_nil r rest)) := by
      have := List.mem_filter.mp hcF
      exact ⟨this.1, (bucketFilter_iff _ _ _ _).mp this.2⟩
    have hmaxStore : ∀ x ∈ store, InBucket symbol (bucketStart tf t)
        (bucketStart tf t + tfDurationUs tf) x →
        x.ts ≤ ((r :: rest).getLast (List.cons_ne_nil r rest)).ts := by
      intro x hx hbx
      exact hcmax x (List.mem_filter.mpr ⟨hx, (bucketFilter_iff _ _ _ _).mpr hbx⟩)
    refine ⟨rfl, rfl, hal, hlo, hhi, ?_, ?_, ?_, ?_, ?_⟩
    · exact ⟨r, hrIn.1, hrIn.2, rfl, hminStore⟩
    · exact ⟨(r :: rest).getLast (List.cons_ne_nil r rest), hcIn.1, hcIn.2, rfl, hmaxStore⟩
    · constructor
      · intro x hx hbx
        have hxr : x ∈ r :: rest := (hmem x).mpr ⟨hx, hbx⟩
        have : x.price ∈ r.price :: rest.map (·.price) := by
          have : x.price ∈ (r :: rest).map (·.price) := List.mem_map_of_mem _ hxr
          simpa using this
        exact le_listMax _ _ _ this
      · have : listMax (r.price :: rest.map (·.price)) ∈ r.price :: rest.map (·.price) :=
          listMax_mem _ _
        have hmm : listMax ((r :: rest).map (·.price)) ∈ (r :: rest).map (·.price) := by
          simpa using this
        obtain ⟨u, hu, hup⟩ := List.mem_map.mp hmm
        obtain ⟨huS, huB⟩ := (hmem u).mp hu
        exact ⟨u, huS, huB, hup.symm⟩
    · constructor
      · intro x hx hbx
        have hxr : x ∈ r :: rest := (hmem x).mpr ⟨hx, hbx⟩
        have : x.price ∈ r.price :: rest.map (·.price) := by
          have : x.price ∈ (r :: rest).map (·.price) := List.mem_map_of_mem _ hxr
          simpa using this
        exact listMin_le _ _ _ this
      · have : listMin (r.price :: rest.map (·.price)) ∈ r.price :: rest.map (·.price) :=
          listMin_mem _ _
        have hmm : listMin ((r :: rest).map (·.price)) ∈ (r :: rest).map (·.price) := by
          simpa using this
        obtain ⟨u, hu, hup⟩ := List.mem_map.mp hmm
        obtain ⟨huS, huB⟩ := (hmem u).mp hu
        exact ⟨u, huS, huB, hup.symm⟩
    · show ((r :: rest).map (·.quantity)).sum = _
      have hpm : List.Perm ((r :: rest).map (·.quantity))
          ((store.filter (bucketFilter symbol (bucketStart tf t)
            (bucketStart tf t + tfDurationUs tf))).map (·.quantity)) :=
        hperm.map _
      rw [hpm.sum_eq]
      congr 1
      apply congrArg
      apply List.filter_congr
      intro x _
      exact bucketFilter_eq_decide _ _ _ _

/-! ## C2: replaying a bucket's ticks through insertion + recomputation -/

/-- Combine the earliest rows of two adjacent list segments (ties go left). -/
def combMin (o1 o2 : Option Tick) : Option Tick :=
  match o1 with
  | none => o2
  | some u =>
    match o2 with
    | none => some u
    | some v => if u.ts ≤ v.ts then some u else some v

/-- Combine the latest rows of two adjacent list segments (ties go right). -/
def combMax (o1 o2 : Option Tick) : Option Tick :=
  match o1 with
  | none => o2
  | some u =>
    match o2 with
    | none => some u
    | some v => if u.ts ≤ v.ts then some v else some u

theorem combineFirst_combMin (t : Tick) (o1 o2 : Option Tick) :
    combineFirst t (combMin o1 o2) = combMin (combineFirst t o1) o2 := by
  cases o1 <;> cases o2 <;>
    simp only [combineFirst, combMin] <;> split_ifs <;>
    simp only [combineFirst, combMin] <;> split_ifs <;> first | rfl | omega

theorem combineLast_combMax (t : Tick) (o1 o2 : Option Tick) :
    combineLast t (combMax o1 o2) = combMax (combineLast t o1) o2 := by
  cases o1 <;> cases o2 <;>
    simp only [combineLast, combMax] <;> split_ifs <;>
    simp only [combineLast, combMax] <;> split_ifs <;> first | rfl | omega

theorem firstMinTick_append (A B : List Tick) :
    firstMinTick (A ++ B) = combMin (firstMinTick A) (firstMinTick B) := by
  induction A with
  | nil => rfl
  | cons t A' ih =>
    show combineFirst t (firstMinTick (A' ++ B)) = _
    rw [ih]
    exact combineFirst_combMin t (firstMinTick A') (firstMinTick B)

theorem lastMaxTick_append (A B : List Tick) :
    lastMaxTick (A ++ B) = combMax (lastMaxTick A) (lastMaxTick B) := by
  induction A with
  | nil => rfl
  | cons t A' ih =>
    show combineLast t (lastMaxTick (A' ++ B)) = _
    rw [ih]
    exact combineLast_combMax t (lastMaxTick A') (lastMaxTick B)

theorem firstMinTick_doubled (T : List Tick) :
    firstMinTick (T ++ T) = firstMinTick T := by
  rw [firstMinTick_append]
  cases h : firstMinTick T with
  | none => rfl
  | some u => simp [combMin]

theorem lastMaxTick_doubled (T : List Tick) :
    lastMaxTick (T ++ T) = lastMaxTick T := by
  rw [lastMaxTick_append]
  cases h : lastMaxTick T with
  | none => rfl
  | some u =>
    simp only [combMax]
    split_ifs <;> rfl

theorem listMax_eq_of_mem_iff {l1 l2 : List Rat} (h1 : l1 ≠ []) (h2 : l2 ≠ [])
    (hm : ∀ x, x ∈ l1 ↔ x ∈ l2) : listMax l1 = listMax l2 := by
  cases l1 with
  | nil => exact absurd rfl h1
  | cons a r1 =>
    cases l2 with
    | nil => exact absurd rfl h2
    | cons b r2 =>
      apply le_antisymm
      · exact le_listMax b r2 _ ((hm _).mp (listMax_mem a r1))
      · exact le_listMax a r1 _ ((hm _).mpr (listMax_mem b r2))

theorem listMin_eq_of_mem_iff {l1 l2 : List Rat} (h1 : l1 ≠ []) (h2 : l2 ≠ [])
    (hm : ∀ x, x ∈ l1 ↔ x ∈ l2) : listMin l1 = listMin l2 := by
  cases l1 with
  | nil => exact absurd rfl h1
  | cons a r1 =>
    cases l2 with
    | nil => exact absurd rfl h2
    | cons b r2 =>
      apply le_antisymm
      · exact listMin_le a r1 _ ((hm _).mpr (listMin_mem b r2))
      · exact listMin_le b r2 _ ((hm _).mp (listMin_mem a r1))

/-- The ticks of one bucket currently in the store (the rows the bucket
query selects, in insertion order). -/
def bucketTicks (store : List Tick) (symbol : String) (tf : Timeframe) (t : Nat) :
    List Tick :=
  store.filter
    (bucketFilter symbol (bucketStart tf t) (bucketStart tf t + tfDurationUs tf))

/-- C2 (amended): re-inserting the ticks of a bucket and recomputing leaves
open, high, low and close unchanged but doubles the stored volume, because
the tick log has no uniqueness constraint and the bar is recomputed from all
stored rows. -/
theorem c2_replay_doubles_volume (store : List Tick) (symbol : String)
    (tf : Timeframe) (t : Nat) (bar : Bar)
    (h : resampleToOhlc store symbol tf t = some bar) :
    ∃ bar2,
      resampleToOhlc (store ++ bucketTicks store symbol tf t) symbol tf t = some bar2 ∧
      bar2.openPrice = bar.openPrice ∧ bar2.highPrice = bar.highPrice ∧
      bar2.lowPrice = bar.lowPrice ∧ bar2.closePrice = bar.closePrice ∧
      bar2.volume = 2 * bar.volume := by
  cases hq : bucketQuery store symbol (bucketStart tf t)
      (bucketStart tf t + tfDurationUs tf) with
  | nil =>
    have h' : resampleToOhlc store symbol tf t = none := by
      simp only [resampleToOhlc]
      rw [hq]
    rw [h'] at h
    exact absurd h (by simp)
  | cons r rest =>
    have h' : resampleToOhlc store symbol tf t =
        some
          { bucketStart := bucketStart tf t
            symbol := symbol
            timeframe := tf
            openPrice := r.price
            highPrice := listMax ((r :: rest).map (·.price))
            lowPrice := listMin ((r :: rest).map (·.price))
            closePrice := ((r :: rest).getLast (List.cons_ne_nil r rest)).price
            volume := ((r :: rest).map (·.quantity)).sum } := by
      simp only [resampleToOhlc]
      rw [hq]
    rw [h'] at h
    rw [Option.some.injEq] at h
    subst h
    have hTT : (store ++ bucketTicks store symbol tf t).filter
        (bucketFilter symbol (bucketStart tf t) (bucketStart tf t + tfDurationUs tf)) =
        bucketTicks store symbol tf t ++ bucketTicks store symbol tf t := by
      rw [List.filter_append]
      have h2 : (bucketTicks store symbol tf t).filter
          (bucketFilter symbol (bucketStart tf t) (bucketStart tf t + tfDurationUs tf)) =
          bucketTicks store symbol tf t :=
        List.filter_eq_self.mpr (fun a ha => List.of_mem_filter ha)
      rw [h2]
      rfl
    have hq2u : bucketQuery (store ++ bucketTicks store symbol tf t) symbol
        (bucketStart tf t) (bucketStart tf t + tfDurationUs tf) =
        List.insertionSort tsLe
          (bucketTicks store symbol tf t ++ bucketTicks store symbol tf t) := by
      unfold bucketQuery
      rw [hTT]
    have hTperm : List.Perm (r :: rest) (bucketTicks store symbol tf t) := by
      rw [← hq]
      exact List.perm_insertionSort tsLe _
    cases hq2 : bucketQuery (store ++ bucketTicks store symbol tf t) symbol
        (bucketStart tf t) (bucketStart tf t + tfDurationUs tf) with
    | nil =>
      exfalso
      rw [hq2u] at hq2
      have hlen := congrArg List.length hq2
      rw [(List.perm_insertionSort tsLe _).length_eq] at hlen
      simp only [List.length_append, List.length_nil] at hlen
      have hlenR := hTperm.length_eq
      simp only [List.length_cons] at hlenR
      omega
    | cons r2 rest2 =>
      have h2' : resampleToOhlc (store ++ bucketTicks store symbol tf t) symbol tf t =
          some
            { bucketStart := bucketStart tf t
              symbol := symbol
              timeframe := tf
              openPrice := r2.price
              highPrice := listMax ((r2 :: rest2).map (·.price))
              lowPrice := listMin ((r2 :: rest2).map (·.price))
              closePrice := ((r2 :: rest2).getLast (List.cons_ne_nil r2 rest2)).price
              volume := ((r2 :: rest2).map (·.quantity)).sum } := by
        simp only [resampleToOhlc]
        rw [hq2]
      have hperm2 : List.Perm (r2 :: rest2)
          (bucketTicks store symbol tf t ++ bucketTicks store symbol tf t) := by
        rw [← hq2, hq2u]
        exact List.perm_insertionSort tsLe _
      have hmemPx : ∀ x : Rat,
          x ∈ (r2 :: rest2).map (·.price) ↔ x ∈ (r :: rest).map (·.price) := by
        intro x
        simp only [List.mem_map]
        constructor
        · rintro ⟨u, hu, e⟩
          have hApp : u ∈ bucketTicks store symbol tf t ++ bucketTicks store symbol tf t :=
            hperm2.subset hu
          have hT : u ∈ bucketTicks store symbol tf t := by
            rcases List.mem_append.mp hApp with h1 | h1 <;> exact h1
          exact ⟨u, hTperm.mem_iff.mpr hT, e⟩
        · rintro ⟨u, hu, e⟩
          have hT : u ∈ bucketTicks store symbol tf t := hTperm.subset hu
          exact ⟨u, hperm2.mem_iff.mpr (List.mem_append.mpr (Or.inl hT)), e⟩
      refine ⟨_, h2', ?_, ?_, ?_, ?_, ?_⟩
      · show r2.price = r.price
        have e2 : firstMinTick
            (bucketTicks store symbol tf t ++ bucketTicks store symbol tf t) = some r2 := by
          rw [← head?_insertionSort, ← hq2u, hq2]
          rfl
        have e1 : firstMinTick (bucketTicks store symbol tf t) = some r := by
          rw [← head?_insertionSort]
          show (bucketQuery store symbol (bucketStart tf t)
            (bucketStart tf t + tfDurationUs tf)).head? = some r
          rw [hq]
          rfl
        rw [firstMinTick_doubled, e1, Option.some.injEq] at e2
        exact congrArg Tick.price e2.symm
      · show listMax ((r2 :: rest2).map (·.price)) = listMax ((r :: rest).map (·.price))
        exact listMax_eq_of_mem_iff (by simp) (by simp) hmemPx
      · show listMin ((r2 :: rest2).map (·.price)) = listMin ((r :: rest).map (·.price))
        exact listMin_eq_of_mem_iff (by simp) (by simp) hmemPx
      · show ((r2 :: rest2).getLast (List.cons_ne_nil r2 rest2)).price =
            ((r :: rest).getLast (List.cons_ne_nil r rest)).price
        have e2 : lastMaxTick
            (bucketTicks store symbol tf t ++ bucketTicks store symbol tf t) =
            some ((r2 :: rest2).getLast (List.cons_ne_nil r2 rest2)) := by
          rw [← getLast?_insertionSort, ← hq2u, hq2]
          exact List.getLast?_eq_getLast _ _
        have e1 : lastMaxTick (bucketTicks store symbol tf t) =
            some ((r :: rest).getLast (List.cons_ne_nil r rest)) := by
          rw [← getLast?_insertionSort]
          show (bucketQuery store symbol (bucketStart tf t)
            (bucketStart tf t + tfDurationUs tf)).getLast? = _
          rw [hq]
          exact List.getLast?_eq_getLast _ _
        rw [lastMaxTick_doubled, e1, Option.some.injEq] at e2
        exact congrArg Tick.price e2.symm
      · show ((r2 :: rest2).map (·.quantity)).sum =
            2 * ((r :: rest).map (·.quantity)).sum
        have hv2 : ((r2 :: rest2).map (·.quantity)).sum =
            ((bucketTicks store symbol tf t ++ bucketTicks store symbol tf t).map
              (·.quantity)).sum :=
          (hperm2.map _).sum_eq
        have hv1 : ((r :: rest).map (·.quantity)).sum =
            ((bucketTicks store symbol tf t).map (·.quantity)).sum :=
          (hTperm.map _).sum_eq
        rw [hv2, hv1, List.map_append, List.sum_append]
        ring

/-! ## Concrete instances for C1 and C2 -/

/-- A two-tick store: one tick inside the 1-second bucket of `t = 700000`,
one outside. -/
def c1Store : List Tick :=
  [{ ts := 500000, symbol := "A", price := 10, quantity := 2 },
   { ts := 1500000, symbol := "A", price := 11, quantity := 3 }]

/-- The bar the resampler produces for `c1Store` at `t = 700000`, `1s`. -/
def c1Bar : Bar :=
  { bucketStart := 0, symbol := "A", timeframe := Timeframe.t1s, openPrice := 10,
    highPrice := 10, lowPrice := 10, closePrice := 10, volume := 2 }

/-- Witness for C1 at a concrete store and tick time. -/
theorem c1_resample_matchesSpec_witness :
    BarMatchesSpec c1Store "A" Timeframe.t1s 700000 c1Bar :=
  c1_resample_matchesSpec c1Store "A" Timeframe.t1s 700000 c1Bar (by
    norm_num [resampleToOhlc, bucketQuery, c1Store, c1Bar, bucketStart,
      secondFloor, tfDurationUs, tfSeconds, usPerSecond, bucketFilter,
      listMax, listMin])

/-- A single tick replayed through `insert_tick` in the C2 counterexample. -/
def c2Tick : Tick := { ts := 0, symbol := "A", price := 10, quantity := 1 }

/-- Empty initial database. -/
def c2Db0 : DbState := { ticks := [], ohlc := [] }

/-- C2 counterexample: processing the bucket's single tick a second time
through tick insertion and bar recomputation changes the stored bar (its
volume doubles), so replaying the same tick set does not leave the bar
equal to the bar after the first pass. -/
theorem c2_counterexample :
    lookupBar (insertTick (insertTick c2Db0 c2Tick) c2Tick) "A" Timeframe.t1s 0 ≠
      lookupBar (insertTick c2Db0 c2Tick) "A" Timeframe.t1s 0 := by
  norm_num [lookupBar, insertTick, updateOhlc, upsertBar, barKeyMatches, c2Db0,
    c2Tick, resampleToOhlc, bucketQuery, bucketStart, secondFloor, minuteFloor,
    setMinute, minuteOf, tfDurationUs, tfSeconds, usPerSecond, usPerMinute,
    bucketFilter, listMax, listMin]
  simp [Option.or]

/-- Store for the C2 amended-claim witness. -/
def c2Store : List Tick := [{ ts := 0, symbol := "B", price := 5, quantity := 1 }]

/-- Bar of `c2Store` before the replay. -/
def c2Bar : Bar :=
  { bucketStart := 0, symbol := "B", timeframe := Timeframe.t1s, openPrice := 5,
    highPrice := 5, lowPrice := 5, closePrice := 5, volume := 1 }

/-- Witness for the amended C2 at a concrete store. -/
theorem c2_replay_doubles_volume_witness :
    ∃ bar2,
      resampleToOhlc (c2Store ++ bucketTicks c2Store "B" Timeframe.t1s 0)
          "B" Timeframe.t1s 0 = some bar2 ∧
      bar2.openPrice = c2Bar.openPrice ∧ bar2.highPrice = c2Bar.highPrice ∧
      bar2.lowPrice = c2Bar.lowPrice ∧ bar2.closePrice = c2Bar.closePrice ∧
      bar2.volume = 2 * c2Bar.volume :=
  c2_replay_doubles_volume c2Store "B" Timeframe.t1s 0 c2Bar (by
    norm_num [resampleToOhlc, bucketQuery, c2Store, c2Bar, bucketStart,
      secondFloor, tfDurationUs, tfSeconds, usPerSecond, bucketFilter,
      listMax, listMin])

/-! ## C3: RSI (analytics_engine.py `_calculate_rsi`)

`delta = prices.diff()` yields NaN at index 0 followed by the `n-1` real
deltas.  `delta.where(delta > 0, 0)` replaces every entry whose condition
is false with 0 — including the leading NaN, since `NaN > 0` is False — so
the gain and loss series contain no NaN: each is a leading 0 followed by
the clipped real deltas.  `rolling(period).mean()` at the last index is
therefore a real number exactly when those series have at least `period`
entries, i.e. when `len(prices) >= period`; at `len(prices) == period` the
window still includes the coerced leading 0 and the RSI is computed, not
defaulted.  When avg loss is 0 and avg gain is positive, float evaluation
gives `rs = inf` and `100 - 100/(1+inf) = 100`, a real number, so 100 is
returned, not 50; when both averages are 0, `0/0 = NaN` propagates and 50
is returned.  The embedding makes these IEEE code paths explicit branches.
(`_calculate_rsi` on an empty series would raise at `iloc[-1]`, but
`compute_analytics` indexes the frame before calling it, so it never
receives one; the model returns the 50 default there.) -/

/-- `prices.diff()` without its leading NaN: consecutive differences. -/
def diffs : List Rat → List Rat
  | a :: b :: rest => (b - a) :: diffs (b :: rest)
  | _ => []

/-- Last `n` entries of a list (the final rolling window). -/
def lastWindow (n : Nat) (l : List Rat) : List Rat := l.drop (l.length - n)

/-- `delta.where(delta > 0, 0)`: 0 for the leading NaN delta, then the
positive parts of the real deltas. -/
def gainSeries (prices : List Rat) : List Rat :=
  0 :: (diffs prices).map (fun d => max d 0)

/-- `(-delta.where(delta < 0, 0))`: 0 for the leading NaN delta, then the
magnitudes of the negative real deltas. -/
def lossSeries (prices : List Rat) : List Rat :=
  0 :: (diffs prices).map (fun d => max (-d) 0)

/-- `gain.rolling(period).mean()` at the last index. -/
def avgGain (prices : List Rat) (period : Nat) : Rat :=
  (lastWindow period (gainSeries prices)).sum / (period : Rat)

/-- `loss.rolling(period).mean()` at the last index. -/
def avgLoss (prices : List Rat) (period : Nat) : Rat :=
  (lastWindow period (lossSeries prices)).sum / (period : Rat)

/-- `_calculate_rsi`: `rs = gain/loss`, `rsi = 100 - 100/(1+rs)`, returning
the last value, with the float special cases as branches: gain/loss series
shorter than the period (`len(prices) < period`) → rolling mean NaN → 50;
`loss = 0, gain = 0` → NaN → 50; `loss = 0, gain > 0` → `rs = inf` → 100. -/
def calculateRsi (prices : List Rat) (period : Nat) : Rat :=
  if prices.length < period then 50
  else if avgLoss prices period = 0 then
    (if avgGain prices period = 0 then 50 else 100)
  else 100 - 100 / (1 + avgGain prices period / avgLoss prices period)

theorem diffs_length (l : List Rat) : (diffs l).length = l.length - 1 := by
  induction l with
  | nil => rfl
  | cons a rest ih =>
    cases rest with
    | nil => rfl
    | cons b r =>
      show ((b - a) :: diffs (b :: r)).length = (b :: r).length
      rw [List.length_cons, ih]
      simp

theorem avgGain_nonneg (prices : List Rat) (period : Nat) :
    0 ≤ avgGain prices period := by
  unfold avgGain lastWindow
  apply div_nonneg
  · apply List.sum_nonneg
    intro x hx
    have hx' : x ∈ gainSeries prices := List.mem_of_mem_drop hx
    rcases List.mem_cons.mp hx' with h0 | hmem
    · rw [h0]
    · obtain ⟨d, _, rfl⟩ := List.mem_map.mp hmem
      exact le_max_right d 0
  · exact Nat.cast_nonneg period

theorem avgLoss_nonneg (prices : List Rat) (period : Nat) :
    0 ≤ avgLoss prices period := by
  unfold avgLoss lastWindow
  apply div_nonneg
  · apply List.sum_nonneg
    intro x hx
    have hx' : x ∈ lossSeries prices := List.mem_of_mem_drop hx
    rcases List.mem_cons.mp hx' with h0 | hmem
    · rw [h0]
    · obtain ⟨d, _, rfl⟩ := List.mem_map.mp hmem
      exact le_max_right (-d) 0
  · exact Nat.cast_nonneg period

/-- C3 (amended): RSI is a total function of the close series with values
in [0, 100]; it returns the neutral 50 when the history is shorter than
the period (strictly — at history length equal to the period the RSI is
already computed) and when, at a full window, both average gain and
average loss are zero; but when the average loss is zero and the average
gain is positive it returns 100, not 50. -/
theorem c3_rsi_range_and_defaults (prices : List Rat) (period : Nat) :
    0 ≤ calculateRsi prices period ∧ calculateRsi prices period ≤ 100 ∧
    (prices.length < period → calculateRsi prices period = 50) ∧
    (period ≤ prices.length → avgLoss prices period = 0 →
      avgGain prices period = 0 → calculateRsi prices period = 50) ∧
    (period ≤ prices.length → avgLoss prices period = 0 →
      avgGain prices period ≠ 0 → calculateRsi prices period = 100) := by
  have hrange : 0 ≤ calculateRsi prices period ∧ calculateRsi prices period ≤ 100 := by
    unfold calculateRsi
    split_ifs with h1 h2 h3
    · norm_num
    · norm_num
    · norm_num
    · have hg := avgGain_nonneg prices period
      have hl := avgLoss_nonneg prices period
      have hl' : 0 < avgLoss prices period := lt_of_le_of_ne hl (Ne.symm h2)
      have hrs : 0 ≤ avgGain prices period / avgLoss prices period :=
        div_nonneg hg hl
      have hpos : (0 : Rat) < 1 + avgGain prices period / avgLoss prices period := by
        linarith
      have hle : 100 / (1 + avgGain prices period / avgLoss prices period) ≤ 100 := by
        rw [div_le_iff₀ hpos]
        nlinarith
      have hq : 0 < 100 / (1 + avgGain prices period / avgLoss prices period) :=
        div_pos (by norm_num) hpos
      constructor <;> linarith
  refine ⟨hrange.1, hrange.2, ?_, ?_, ?_⟩
  · intro h
    unfold calculateRsi
    rw [if_pos h]
  · intro hlen hl hg
    unfold calculateRsi
    rw [if_neg (by omega)]
    simp [hl, hg]
  · intro hlen hl hg
    unfold calculateRsi
    rw [if_neg (by omega)]
    simp [hl, hg]

/-- Strictly increasing close series: every delta is +1. -/
def c3Prices : List Rat := [1, 2, 3, 4, 5, 6, 7, 8, 9, 10, 11, 12, 13, 14, 15]

/-- C3 counterexample: on a strictly rising series the average loss is zero
yet RSI(14) evaluates to 100, not the claimed 50 (float evaluation gives
`rs = inf`, `rsi = 100`, which is not NaN, so the 50 default is skipped). -/
theorem c3_counterexample :
    avgLoss c3Prices 14 = 0 ∧ calculateRsi c3Prices 14 = 100 := by
  norm_num [c3Prices, calculateRsi, avgLoss, avgGain, gainSeries, lossSeries,
    diffs, lastWindow, max_def]

/-- Too little history for RSI(14). -/
def c3ShortPrices : List Rat := [3, 1, 2]

/-- Fifteen equal closes: all deltas are zero. -/
def c3FlatPrices : List Rat := [1, 1, 1, 1, 1, 1, 1, 1, 1, 1, 1, 1, 1, 1, 1]

/-- History length exactly equal to the period: the window is full (its
first entry is the coerced leading 0) and the RSI is computed, not
defaulted. -/
def c3BoundaryPrices : List Rat := [1, 2, 3, 4, 5, 6, 7, 8, 9, 10, 11, 12, 13, 14]

/-- Witness for the amended C3: a short history returns 50, a flat series
(average gain and loss both zero) returns 50, and at history length equal
to the period a strictly rising series already computes RSI = 100. -/
theorem c3_rsi_witness :
    calculateRsi c3ShortPrices 14 = 50 ∧ calculateRsi c3FlatPrices 14 = 50 ∧
    calculateRsi c3BoundaryPrices 14 = 100 :=
  ⟨(c3_rsi_range_and_defaults c3ShortPrices 14).2.2.1 (by norm_num [c3ShortPrices]),
   (c3_rsi_range_and_defaults c3FlatPrices 14).2.2.2.1
     (by norm_num [c3FlatPrices])
     (by norm_num [avgLoss, c3FlatPrices, lossSeries, diffs, lastWindow, max_def])
     (by norm_num [avgGain, c3FlatPrices, gainSeries, diffs, lastWindow, max_def]),
   (c3_rsi_range_and_defaults c3BoundaryPrices 14).2.2.2.2
     (by norm_num [c3BoundaryPrices])
     (by norm_num [avgLoss, c3BoundaryPrices, lossSeries, diffs, lastWindow, max_def])
     (by norm_num [avgGain, c3BoundaryPrices, gainSeries, diffs, lastWindow, max_def])⟩

/-! ## C4: compute_analytics insufficient-data guard (analytics_engine.py)

The data frame rows carry the columns `compute_analytics` reads (timestamp,
close, volume); the unused open/high/low columns of bar frames are omitted.
Statistics needing a real square root (volatility, z-score, Sharpe) and the
ADF test are not representable over `Rat` and are not modelled as result
fields; the claim under verification concerns the guard branch, which is
embedded exactly. -/

/-- A row of the frame returned by `get_dataframe`. -/
structure BarRow where
  ts : Nat
  close : Rat
  volume : Rat
deriving DecidableEq, Repr

/-- `pandas.Series.mean`. -/
def listAvg (l : List Rat) : Rat := l.sum / (l.length : Rat)

/-- The numeric block of a successful `compute_analytics` call (the fields
expressible over `Rat`; `volumeOverAvg` is `volume_ratio` in the source). -/
structure AnalyticsOk where
  symbol : String
  current : Rat
  changePercent : Rat
  high : Rat
  low : Rat
  avg : Rat
  rsi : Rat
  volumeCurrent : Rat
  volumeAverage : Rat
  volumeOverAvg : Rat
  dataPoints : Nat
deriving DecidableEq, Repr

/-- Result of `compute_analytics`: the insufficient-data dict (with
`required` and `available` counts), the catch-all error dict produced by the
surrounding `except` (reached when indexing an empty frame), or the numeric
statistics block. -/
inductive AnalyticsResult where
  | insufficientData (required available : Nat)
  | failure
  | ok (a : AnalyticsOk)
deriving DecidableEq, Repr

/-- `compute_analytics` over an already-loaded frame: guard first
(`len(df) < window`), then the statistics block. -/
def computeAnalytics (symbol : String) (df : List BarRow) (window : Nat) :
    AnalyticsResult :=
  if df.length < window then .insufficientData window df.length
  else
    match df.head?, df.getLast? with
    | some firstRow, some lastRow =>
      let closes := df.map (·.close)
      let vols := df.map (·.volume)
      let avgVolume := listAvg vols
      .ok
        { symbol := symbol
          current := lastRow.close
          changePercent := (lastRow.close - firstRow.close) / firstRow.close * 100
          high := listMax closes
          low := listMin closes
          avg := listAvg closes
          rsi := calculateRsi closes 14
          volumeCurrent := lastRow.volume
          volumeAverage := avgVolume
          volumeOverAvg := if 0 < avgVolume then lastRow.volume / avgVolume else 1
          dataPoints := df.length }
    | _, _ => .failure

/-- C4: with fewer than `window` available rows, `compute_analytics` returns
the insufficient-data result carrying the required count (`window`) and the
available count (`len(df)`) — never a numeric statistics block and never an
exception. -/
theorem c4_insufficient_guard (symbol : String) (df : List BarRow)
    (window : Nat) (h : df.length < window) :
    computeAnalytics symbol df window = .insufficientData window df.length := by
  unfold computeAnalytics
  rw [if_pos h]

/-- Two-row frame for the C4 witness. -/
def c4Df : List BarRow :=
  [{ ts := 0, close := 10, volume := 1 }, { ts := 60000000, close := 11, volume := 2 }]

/-- Witness for C4 at a concrete frame and window. -/
theorem c4_insufficient_guard_witness :
    computeAnalytics "BTCUSDT" c4Df 20 = AnalyticsResult.insufficientData 20 2 :=
  c4_insufficient_guard "BTCUSDT" c4Df 20 (by norm_num [c4Df])

/-! ## C5: mean-reversion backtest (analytics_engine.py `backtest_mean_reversion`)

The replayed series rows carry timestamp, spread and z-score.  Rows whose
float z-score is NaN satisfy neither `z > 2` nor `z < 0` and fall through
to the no-op branch, exactly like any in-range value that triggers neither
comparison, so `Rat`-valued z-scores model every reachable behavior. -/

/-- One row of the merged spread/z-score frame. -/
structure SpreadRow where
  ts : Nat
  spread : Rat
  zscore : Rat
deriving DecidableEq, Repr

/-- The exit fields written together on close (`exit`, `exit_time`, `pnl`). -/
structure BtExit where
  exitPrice : Rat
  exitTime : Nat
  pnl : Rat
deriving DecidableEq, Repr

/-- One position dict: entry fields always present, exit fields optional. -/
structure BtPos where
  entry : Rat
  entryTime : Nat
  closed : Option BtExit
deriving DecidableEq, Repr

/-- Loop state: `positions`, `in_position`, `entry_price`. -/
structure BtState where
  positions : List BtPos
  inPosition : Bool
  entryPrice : Rat
deriving DecidableEq, Repr

/-- `positions[-1]['exit'] = ...`: close the last position.  The source
indexes `positions[-1]`, reachable only when `in_position` holds, which
implies a position was appended; the empty case is unreachable. -/
def setLastClosed (l : List BtPos) (e : BtExit) : List BtPos :=
  match l.getLast? with
  | none => l
  | some p => l.dropLast ++ [{ p with closed := some e }]

/-- One loop iteration: enter when flat and `z > 2`, exit when in position
and `z < 0`, otherwise no-op. -/
def btStep (st : BtState) (row : SpreadRow) : BtState :=
  if !st.inPosition && decide (row.zscore > 2) then
    { positions :=
        st.positions ++ [{ entry := row.spread, entryTime := row.ts, closed := none }]
      inPosition := true
      entryPrice := row.spread }
  else if st.inPosition && decide (row.zscore < 0) then
    { positions :=
        setLastClosed st.positions
          { exitPrice := row.spread, exitTime := row.ts, pnl := st.entryPrice - row.spread }
      inPosition := false
      entryPrice := st.entryPrice }
  else st

/-- Initial loop state (`positions = []`, `in_position = False`,
`entry_price = 0`). -/
def btInit : BtState := { positions := [], inPosition := false, entryPrice := 0 }

/-- Replay the whole series through the two-state rule. -/
def btRun (rows : List SpreadRow) : BtState := rows.foldl btStep btInit

/-- `p['pnl']` of a completed trade (0 unreachable: only read on completed
positions). -/
def btPnl (p : BtPos) : Rat :=
  match p.closed with
  | some e => e.pnl
  | none => 0

/-- The aggregate dict returned by the backtest. -/
structure BtResult where
  totalTrades : Nat
  totalPnl : Rat
  winRate : Rat
  avgPnl : Rat
  trades : List BtPos
deriving DecidableEq, Repr

/-- Aggregate statistics over completed trades only, with the first-10
sample (`completed_trades[:10]`). -/
def backtestStats (rows : List SpreadRow) : BtResult :=
  let completed := (btRun rows).positions.filter (fun p => p.closed.isSome)
  if completed.length = 0 then
    { totalTrades := 0, totalPnl := 0, winRate := 0, avgPnl := 0, trades := [] }
  else
    { totalTrades := completed.length
      totalPnl := (completed.map btPnl).sum
      winRate :=
        ((completed.filter (fun p => decide (0 < btPnl p))).length : Rat) /
          (completed.length : Rat)
      avgPnl := (completed.map btPnl).sum / (completed.length : Rat)
      trades := completed.take 10 }

/-- The scenario series of the claim: z-scores 2.5, 1.0, −0.5 with spreads
10, 8, 6 at times 0, 1, 2. -/
def c5Rows : List SpreadRow :=
  [{ ts := 0, spread := 10, zscore := 5/2 },
   { ts := 1, spread := 8, zscore := 1 },
   { ts := 2, spread := 6, zscore := -(1/2) }]

/-- C5: the two-state replay enters from flat on `z > 2` recording the entry
spread, exits on `z < 0` recording exit spread and PnL = entry − exit, and
aggregates over completed trades only (every reported trade is closed and
the trade count is the number of closed positions); on the scenario series
it produces exactly one completed trade with PnL = 4. -/
theorem c5_backtest_spec :
    backtestStats c5Rows =
      { totalTrades := 1, totalPnl := 4, winRate := 1, avgPnl := 4,
        trades := [{ entry := 10, entryTime := 0,
                     closed := some { exitPrice := 6, exitTime := 2, pnl := 4 } }] } ∧
    (∀ rows, ∀ p ∈ (backtestStats rows).trades, p.closed.isSome = true) ∧
    (∀ rows, (backtestStats rows).totalTrades =
      ((btRun rows).positions.filter (fun p => p.closed.isSome)).length) := by
  refine ⟨?_, ?_, ?_⟩
  · norm_num [backtestStats, btRun, btStep, btInit, c5Rows, setLastClosed, btPnl,
      List.filter]
  · intro rows p hp
    unfold backtestStats at hp
    dsimp only at hp
    split_ifs at hp with h
    · simp at hp
    · have h1 : p ∈ List.filter (fun q => q.closed.isSome) (btRun rows).positions :=
        List.mem_of_mem_take hp
      simpa using List.of_mem_filter h1
  · intro rows
    unfold backtestStats
    dsimp only
    split_ifs with h
    · simpa using h.symm
    · rfl

/-- Witness for C5: the scenario's single reported trade is a closed trade
(open trades are excluded from the sample). -/
theorem c5_backtest_witness :
    ({ entry := 10, entryTime := 0,
       closed := some { exitPrice := 6, exitTime := 2, pnl := 4 } } : BtPos).closed.isSome =
      true := by
  have h := c5_backtest_spec
  exact h.2.1 c5Rows _ (by rw [h.1]; simp)

/-! ## C6: pair-analytics inner join (analytics_engine.py `compute_pair_analytics`)

`pd.merge(df1, df2, on="timestamp", how="inner")` keeps the left frame's
row order and, for each left row, emits one output row per matching right
row (exact timestamp equality); rows without a counterpart are dropped.
The regression/rolling/correlation block needs square roots and an
iterative Huber fit, which are outside the rational embedding; the OLS
hedge ratio, intercept, spread series and row count are modelled exactly. -/

/-- A (timestamp, close) row of one symbol's series. -/
structure PxRow where
  ts : Nat
  price : Rat
deriving DecidableEq, Repr

/-- A row of the merged frame. -/
structure MergedRow where
  ts : Nat
  price1 : Rat
  price2 : Rat
deriving DecidableEq, Repr

/-- `pd.merge(..., how="inner", on="timestamp")`. -/
def innerMerge : List PxRow → List PxRow → List MergedRow
  | [], _ => []
  | r1 :: rest, df2 =>
    (df2.filter (fun r2 => r2.ts == r1.ts)).map
        (fun r2 => { ts := r1.ts, price1 := r1.price, price2 := r2.price }) ++
      innerMerge rest df2

/-- OLS slope of price1 on price2 (single regressor with intercept):
`cov(x, y) / var(x)` over the merged rows (what `LinearRegression.fit`
computes; division by zero degenerates instead of raising, caught by the
caller's except in the source). -/
def olsSlope (merged : List MergedRow) : Rat :=
  let n : Rat := (merged.length : Rat)
  let xbar := listAvg (merged.map (·.price2))
  let ybar := listAvg (merged.map (·.price1))
  let sxy := ((merged.map (fun m => (m.price2 - xbar) * (m.price1 - ybar))).sum)
  let sxx := ((merged.map (fun m => (m.price2 - xbar) * (m.price2 - xbar))).sum)
  if n = 0 then 0 else sxy / sxx

/-- Result of `compute_pair_analytics`, with the two insufficient-data
error dicts distinguished as in the source. -/
inductive PairResult where
  | insufficientPair
  | insufficientAligned
  | ok (hedge : Rat) (intercept : Rat) (spread : List Rat) (dataPoints : Nat)
deriving DecidableEq, Repr

/-- `compute_pair_analytics` up to the rationally-representable outputs:
both length guards, the inner join, the OLS hedge ratio and the spread
series `price1 - hedge*price2`. -/
def computePairAnalytics (df1 df2 : List PxRow) (window : Nat) : PairResult :=
  if df1.length < window ∨ df2.length < window then .insufficientPair
  else
    let merged := innerMerge df1 df2
    if merged.length < window then .insufficientAligned
    else
      let hedge := olsSlope merged
      let intercept :=
        listAvg (merged.map (·.price1)) - hedge * listAvg (merged.map (·.price2))
      .ok hedge intercept (merged.map (fun m => m.price1 - hedge * m.price2))
        merged.length

theorem innerMerge_mem_ts (d1 d2 : List PxRow) :
    ∀ m ∈ innerMerge d1 d2, m.ts ∈ d1.map (·.ts) ∧ m.ts ∈ d2.map (·.ts) := by
  induction d1 with
  | nil => intro m hm; simp [innerMerge] at hm
  | cons r1 rest ih =>
    intro m hm
    unfold innerMerge at hm
    rcases List.mem_append.mp hm with h1 | h1
    · obtain ⟨r2, hr2, rfl⟩ := List.mem_map.mp h1
      have hr2f := List.mem_filter.mp hr2
      have hts : r2.ts = r1.ts := by
        have := hr2f.2
        simpa using this
      constructor
      · simp
      · rw [List.mem_map]
        exact ⟨r2, hr2f.1, hts⟩
    · obtain ⟨hm1, hm2⟩ := ih m h1
      exact ⟨by simp [List.mem_cons]; right; simpa using hm1, hm2⟩

theorem filter_ts_count (d2 : List PxRow) (t : Nat) :
    (d2.filter (fun r => r.ts == t)).length = (d2.map (·.ts)).count t := by
  induction d2 with
  | nil => rfl
  | cons r2 rest ih =>
    by_cases h : r2.ts = t
    · simp [List.filter_cons, h, List.count_cons, ih]
    · simp [List.filter_cons, h, List.count_cons, ih]

theorem innerMerge_length_le_left (d1 d2 : List PxRow)
    (h2 : (d2.map (·.ts)).Nodup) :
    (innerMerge d1 d2).length ≤ d1.length := by
  induction d1 with
  | nil => simp [innerMerge]
  | cons r1 rest ih =>
    unfold innerMerge
    rw [List.length_append, List.length_map, List.length_cons]
    have hc : (d2.filter (fun r => r.ts == r1.ts)).length ≤ 1 := by
      rw [filter_ts_count]
      exact List.nodup_iff_count_le_one.mp h2 r1.ts
    omega

theorem countP_disjoint_add {α : Type} (l : List α) (p q : α → Bool)
    (h : ∀ x ∈ l, ¬(p x = true ∧ q x = true)) :
    l.countP (fun x => p x || q x) = l.countP p + l.countP q := by
  induction l with
  | nil => rfl
  | cons a rest ih =>
    have ha := h a (List.mem_cons_self a rest)
    have ih' := ih (fun x hx => h x (List.mem_cons_of_mem a hx))
    rw [List.countP_cons, List.countP_cons, List.countP_cons, ih']
    cases hp : p a <;> cases hq : q a <;> simp_all <;> omega

theorem innerMerge_length_le_right (d1 d2 : List PxRow)
    (h1 : (d1.map (·.ts)).Nodup) :
    (innerMerge d1 d2).length ≤ d2.length := by
  have key : ∀ (l : List PxRow), (l.map (·.ts)).Nodup →
      (innerMerge l d2).length ≤
        d2.countP (fun r => decide (r.ts ∈ l.map (·.ts))) := by
    intro l
    induction l with
    | nil => intro _; simp [innerMerge]
    | cons r1 rest ih =>
      intro hnd
      rw [List.map_cons, List.nodup_cons] at hnd
      obtain ⟨hnotin, hndrest⟩ := hnd
      unfold innerMerge
      rw [List.length_append, List.length_map]
      have hsum : d2.countP (fun r => (r.ts == r1.ts) ||
          decide (r.ts ∈ rest.map (·.ts))) =
          d2.countP (fun r => r.ts == r1.ts) +
            d2.countP (fun r => decide (r.ts ∈ rest.map (·.ts))) := by
        apply countP_disjoint_add
        intro x _ hx
        obtain ⟨hxa, hxb⟩ := hx
        rw [beq_iff_eq] at hxa
        rw [decide_eq_true_eq] at hxb
        rw [hxa] at hxb
        exact hnotin hxb
      have hcongr : d2.countP (fun r => decide (r.ts ∈ (r1 :: rest).map (·.ts))) =
          d2.countP (fun r => (r.ts == r1.ts) ||
            decide (r.ts ∈ rest.map (·.ts))) := by
        apply List.countP_congr
        intro x _
        simp [List.mem_cons]
      rw [hcongr, hsum]
      have hfl : (d2.filter (fun r => r.ts == r1.ts)).length =
          d2.countP (fun r => r.ts == r1.ts) := by
        rw [List.countP_eq_length_filter]
      have := ih hndrest
      omega
  calc (innerMerge d1 d2).length
      ≤ d2.countP (fun r => decide (r.ts ∈ d1.map (·.ts))) := key d1 h1
    _ ≤ d2.length := List.countP_le_length _

/-- Two series sharing one duplicated timestamp. -/
def c6Dup1 : List PxRow := [{ ts := 0, price := 1 }, { ts := 0, price := 2 }]

/-- Second series with the same duplicated timestamp. -/
def c6Dup2 : List PxRow := [{ ts := 0, price := 3 }, { ts := 0, price := 4 }]

/-- C6 counterexample: with duplicate timestamps (possible for tick-level
series, where several trades share one millisecond), the inner join emits
the per-key cartesian product and its row count exceeds
min(len(series1), len(series2)). -/
theorem c6_counterexample :
    min c6Dup1.length c6Dup2.length < (innerMerge c6Dup1 c6Dup2).length := by
  norm_num [innerMerge, c6Dup1, c6Dup2, List.filter]

/-- C6 (amended): every joined row's timestamp occurs in both input series;
when each series has pairwise-distinct timestamps (always true for bar
series, unique per (symbol, timeframe, timestamp)), the joined row count is
at most min(len(series1), len(series2)); and with both series long enough
but fewer than `window` joined rows, `compute_pair_analytics` returns the
insufficient-aligned-data result. -/
theorem c6_pair_join (d1 d2 : List PxRow) :
    (∀ m ∈ innerMerge d1 d2, m.ts ∈ d1.map (·.ts) ∧ m.ts ∈ d2.map (·.ts)) ∧
    ((d1.map (·.ts)).Nodup → (d2.map (·.ts)).Nodup →
      (innerMerge d1 d2).length ≤ min d1.length d2.length) ∧
    (∀ window, ¬ d1.length < window → ¬ d2.length < window →
      (innerMerge d1 d2).length < window →
      computePairAnalytics d1 d2 window = .insufficientAligned) := by
  refine ⟨innerMerge_mem_ts d1 d2, ?_, ?_⟩
  · intro h1 h2
    exact le_min (innerMerge_length_le_left d1 d2 h2)
      (innerMerge_length_le_right d1 d2 h1)
  · intro window hw1 hw2 hm
    unfold computePairAnalytics
    rw [if_neg (by tauto)]
    dsimp only
    rw [if_pos hm]

/-- First series for the C6 witness (distinct timestamps). -/
def c6W1 : List PxRow := [{ ts := 0, price := 1 }, { ts := 1, price := 2 }]

/-- Second series for the C6 witness (distinct timestamps, one overlap). -/
def c6W2 : List PxRow := [{ ts := 1, price := 5 }, { ts := 2, price := 6 }]

/-- Witness for the amended C6 at concrete duplicate-free series. -/
theorem c6_pair_join_witness :
    (innerMerge c6W1 c6W2).length ≤ min c6W1.length c6W2.length ∧
    computePairAnalytics c6W1 c6W2 2 = PairResult.insufficientAligned :=
  ⟨(c6_pair_join c6W1 c6W2).2.1 (by simp [c6W1]) (by simp [c6W2]),
   (c6_pair_join c6W1 c6W2).2.2 2 (by norm_num [c6W1]) (by norm_num [c6W2])
     (by decide)⟩

/-! ## Alert manager (alert_manager.py)

Rules live in a dict keyed by alert id, modelled as an association list in
insertion order (the key is the `id`; the source stores it redundantly
inside the dict as well).  `datetime.now().isoformat()` values are opaque
strings threaded in as a `now` parameter. -/

/-- `_evaluate_condition`: the five comparison strings, approximate
equality with tolerance 1e-4, anything else false.  The comparisons
themselves cannot raise, so the `except` branch is dead code for numeric
inputs. -/
def evaluateCondition (value : Rat) (condition : String) (threshold : Rat) : Bool :=
  if condition = ">" then decide (value > threshold)
  else if condition = "<" then decide (value < threshold)
  else if condition = ">=" then decide (value ≥ threshold)
  else if condition = "<=" then decide (value ≤ threshold)
  else if condition = "==" then decide (|value - threshold| < 1/10000)
  else false

/-- An alert rule dict (minus the redundant inner `id`). -/
structure AlertRule where
  symbol : String
  metric : String
  condition : String
  threshold : Rat
  message : String
  createdAt : String
  active : Bool
  triggerCount : Nat
  lastTriggered : Option String
deriving DecidableEq, Repr

/-- A triggered-alert event appended to the history ring. -/
structure TriggeredAlert where
  alertId : String
  message : String
  symbol : String
  metric : String
  value : Rat
  threshold : Rat
  timestamp : String
deriving DecidableEq, Repr

/-- The `AlertManager` state: rule mapping plus trigger history. -/
structure AlertState where
  alerts : List (String × AlertRule)
  history : List TriggeredAlert
deriving DecidableEq, Repr

/-- Append then trim to the last 100 (`self.triggered_history[-100:]` when
the length exceeds 100). -/
def appendBounded (hist : List TriggeredAlert) (x : TriggeredAlert) :
    List TriggeredAlert :=
  let h := hist ++ [x]
  if 100 < h.length then h.drop (h.length - 100) else h

/-- The tick dict fields read by `check_tick` (`timestamp` only flows into
the event as a string). -/
structure TickData where
  timestamp : String
  symbol : String
  price : Rat
  quantity : Rat
deriving DecidableEq, Repr

/-- Metric resolution from a tick: price, or quantity for volume/quantity;
anything else is unavailable. -/
def tickMetricValue (r : AlertRule) (tick : TickData) : Option Rat :=
  if r.metric = "price" then some tick.price
  else if r.metric = "volume" ∨ r.metric = "quantity" then some tick.quantity
  else none

/-- The combined trigger predicate of one `check_tick` loop iteration:
active, symbol matches, metric resolvable, condition true. -/
def ruleTriggersOnTick (r : AlertRule) (tick : TickData) : Bool :=
  r.active && r.symbol == tick.symbol &&
    (match tickMetricValue r tick with
     | none => false
     | some v => evaluateCondition v r.condition r.threshold)

/-- `trigger_count += 1; last_triggered = now`: the only rule mutation. -/
def bumpRule (r : AlertRule) (now : String) : AlertRule :=
  { r with triggerCount := r.triggerCount + 1, lastTriggered := some now }

/-- One `check_tick` loop iteration over the accumulator
(rules-so-far, history, triggered-so-far), mirroring the source's
skip/trigger control flow. -/
def checkTickStep (tick : TickData) (now : String)
    (acc : List (String × AlertRule) × List TriggeredAlert × List TriggeredAlert)
    (e : String × AlertRule) :
    List (String × AlertRule) × List TriggeredAlert × List TriggeredAlert :=
  let (done, hist, trig) := acc
  let (id, r) := e
  if r.active = false then (done ++ [(id, r)], hist, trig)
  else if r.symbol ≠ tick.symbol then (done ++ [(id, r)], hist, trig)
  else
    match tickMetricValue r tick with
    | none => (done ++ [(id, r)], hist, trig)
    | some v =>
      if evaluateCondition v r.condition r.threshold then
        let ta : TriggeredAlert :=
          { alertId := id, message := r.message, symbol := r.symbol,
            metric := r.metric, value := v, threshold := r.threshold,
            timestamp := tick.timestamp }
        (done ++ [(id, bumpRule r now)], appendBounded hist ta, trig ++ [ta])
      else (done ++ [(id, r)], hist, trig)

/-- `check_tick`: iterate over all rules, returning the new state and the
list of triggered alerts. -/
def checkTick (st : AlertState) (tick : TickData) (now : String) :
    AlertState × List TriggeredAlert :=
  let res := st.alerts.foldl (checkTickStep tick now) ([], st.history, [])
  ({ alerts := res.1, history := res.2.1 }, res.2.2)

/-- The analytics dict fields read by `check_analytics` (absent keys are
`none`). -/
structure AnalyticsSnapshot where
  symbol : Option String
  zscore : Option Rat
  rsi : Option Rat
  volatility : Option Rat
  priceCurrent : Option Rat
deriving DecidableEq, Repr

/-- Metric resolution from an analytics snapshot (`value` stays `None` for
unknown metrics and for absent keys). -/
def analyticsMetricValue (r : AlertRule) (snap : AnalyticsSnapshot) : Option Rat :=
  if r.metric = "zscore" then snap.zscore
  else if r.metric = "rsi" then snap.rsi
  else if r.metric = "volatility" then snap.volatility
  else if r.metric = "price" then snap.priceCurrent
  else none

/-- The combined trigger predicate of one `check_analytics` iteration. -/
def ruleTriggersOnAnalytics (r : AlertRule) (snap : AnalyticsSnapshot) : Bool :=
  r.active && snap.symbol == some r.symbol &&
    (match analyticsMetricValue r snap with
     | none => false
     | some v => evaluateCondition v r.condition r.threshold)

/-- One `check_analytics` loop iteration (the event timestamp is `now`). -/
def checkAnalyticsStep (snap : AnalyticsSnapshot) (now : String)
    (acc : List (String × AlertRule) × List TriggeredAlert × List TriggeredAlert)
    (e : String × AlertRule) :
    List (String × AlertRule) × List TriggeredAlert × List TriggeredAlert :=
  let (done, hist, trig) := acc
  let (id, r) := e
  if r.active = false then (done ++ [(id, r)], hist, trig)
  else if snap.symbol ≠ some r.symbol then (done ++ [(id, r)], hist, trig)
  else
    match analyticsMetricValue r snap with
    | none => (done ++ [(id, r)], hist, trig)
    | some v =>
      if evaluateCondition v r.condition r.threshold then
        let ta : TriggeredAlert :=
          { alertId := id, message := r.message, symbol := r.symbol,
            metric := r.metric, value := v, threshold := r.threshold,
            timestamp := now }
        (done ++ [(id, bumpRule r now)], appendBounded hist ta, trig ++ [ta])
      else (done ++ [(id, r)], hist, trig)

/-- `check_analytics`: iterate over all rules. -/
def checkAnalytics (st : AlertState) (snap : AnalyticsSnapshot) (now : String) :
    AlertState × List TriggeredAlert :=
  let res := st.alerts.foldl (checkAnalyticsStep snap now) ([], st.history, [])
  ({ alerts := res.1, history := res.2.1 }, res.2.2)

/-- `remove_alert`: delete the rule if its id is present (`if alert_id in
self.alerts: del ...`), otherwise do nothing. -/
def removeAlert (alerts : List (String × AlertRule)) (id : String) :
    List (String × AlertRule) :=
  if (alerts.lookup id).isSome then alerts.eraseP (fun e => e.1 == id) else alerts

/-- C7: '>', '<', '>=', '<=' are the exact numeric comparisons; '==' holds
iff |value − threshold| < 1e-4, so threshold + 0.00005 triggers and
threshold + 0.001 does not; every other condition string evaluates to
false (and the evaluator is total, so it never raises). -/
theorem c7_condition_semantics (value threshold : Rat) :
    (evaluateCondition value ">" threshold = true ↔ threshold < value) ∧
    (evaluateCondition value "<" threshold = true ↔ value < threshold) ∧
    (evaluateCondition value ">=" threshold = true ↔ threshold ≤ value) ∧
    (evaluateCondition value "<=" threshold = true ↔ value ≤ threshold) ∧
    (evaluateCondition value "==" threshold = true ↔ |value - threshold| < 1/10000) ∧
    evaluateCondition (threshold + 1/20000) "==" threshold = true ∧
    evaluateCondition (threshold + 1/1000) "==" threshold = false ∧
    (∀ c : String, c ≠ ">" → c ≠ "<" → c ≠ ">=" → c ≠ "<=" → c ≠ "==" →
      evaluateCondition value c threshold = false) := by
  refine ⟨?_, ?_, ?_, ?_, ?_, ?_, ?_, ?_⟩
  · simp [evaluateCondition]
  · simp [evaluateCondition]
  · simp [evaluateCondition]
  · simp [evaluateCondition]
  · simp [evaluateCondition]
  · unfold evaluateCondition
    rw [if_neg (by decide), if_neg (by decide), if_neg (by decide),
      if_neg (by decide), if_pos rfl, decide_eq_true_eq]
    have h1 : threshold + 1/20000 - threshold = 1/20000 := by ring
    rw [h1, abs_of_pos (by norm_num)]
    norm_num
  · unfold evaluateCondition
    rw [if_neg (by decide), if_neg (by decide), if_neg (by decide),
      if_neg (by decide), if_pos rfl, decide_eq_false_iff_not]
    have h1 : threshold + 1/1000 - threshold = 1/1000 := by ring
    rw [h1, abs_of_pos (by norm_num)]
    norm_num
  · intro c h1 h2 h3 h4 h5
    unfold evaluateCondition
    rw [if_neg h1, if_neg h2, if_neg h3, if_neg h4, if_neg h5]

/-- Witness for C7: an unknown condition string evaluates to false. -/
theorem c7_condition_witness : evaluateCondition 1 "!=" 0 = false :=
  (c7_condition_semantics 1 0).2.2.2.2.2.2.2 "!=" (by decide) (by decide)
    (by decide) (by decide) (by decide)

/-! ## C8: the trigger history is a bounded FIFO ring -/

theorem appendBounded_length (hist : List TriggeredAlert) (x : TriggeredAlert) :
    (appendBounded hist x).length ≤ 100 := by
  unfold appendBounded
  dsimp only
  split_ifs with h
  · rw [List.length_drop]
    omega
  · rw [List.length_append] at h ⊢
    simp only [List.length_cons, List.length_nil] at h ⊢
    omega

theorem appendBounded_suffix (hist : List TriggeredAlert) (x : TriggeredAlert) :
    (appendBounded hist x) <:+ hist ++ [x] := by
  unfold appendBounded
  dsimp only
  split_ifs with h
  · exact List.drop_suffix _ _
  · exact List.suffix_refl _

theorem suffix_append_same {α : Type} {l1 l2 : List α} (h : l1 <:+ l2)
    (t : List α) : l1 ++ t <:+ l2 ++ t := by
  obtain ⟨p, rfl⟩ := h
  exact ⟨p, (List.append_assoc p l1 t).symm⟩

theorem checkTickStep_shape (tick : TickData) (now : String)
    (done : List (String × AlertRule)) (hist trig : List TriggeredAlert)
    (id : String) (r : AlertRule) :
    (∃ r', checkTickStep tick now (done, hist, trig) (id, r) =
        (done ++ [(id, r')], hist, trig)) ∨
    (∃ r' ta, checkTickStep tick now (done, hist, trig) (id, r) =
        (done ++ [(id, r')], appendBounded hist ta, trig ++ [ta])) := by
  unfold checkTickStep
  dsimp only
  split_ifs with h1 h2
  · exact Or.inl ⟨r, rfl⟩
  · exact Or.inl ⟨r, rfl⟩
  · cases hmv : tickMetricValue r tick with
    | none => exact Or.inl ⟨r, rfl⟩
    | some v =>
      dsimp only
      split_ifs with h3
      · exact Or.inr ⟨bumpRule r now, _, rfl⟩
      · exact Or.inl ⟨r, rfl⟩

theorem checkAnalyticsStep_shape (snap : AnalyticsSnapshot) (now : String)
    (done : List (String × AlertRule)) (hist trig : List TriggeredAlert)
    (id : String) (r : AlertRule) :
    (∃ r', checkAnalyticsStep snap now (done, hist, trig) (id, r) =
        (done ++ [(id, r')], hist, trig)) ∨
    (∃ r' ta, checkAnalyticsStep snap now (done, hist, trig) (id, r) =
        (done ++ [(id, r')], appendBounded hist ta, trig ++ [ta])) := by
  unfold checkAnalyticsStep
  dsimp only
  split_ifs with h1 h2
  · exact Or.inl ⟨r, rfl⟩
  · exact Or.inl ⟨r, rfl⟩
  · cases hmv : analyticsMetricValue r snap with
    | none => exact Or.inl ⟨r, rfl⟩
    | some v =>
      dsimp only
      split_ifs with h3
      · exact Or.inr ⟨bumpRule r now, _, rfl⟩
      · exact Or.inl ⟨r, rfl⟩

theorem checkTick_fold_spec (tick : TickData) (now : String) :
    ∀ (entries : List (String × AlertRule)) (done : List (String × AlertRule))
      (hist trig : List TriggeredAlert),
      (hist.length ≤ 100 →
        (entries.foldl (checkTickStep tick now) (done, hist, trig)).2.1.length ≤ 100) ∧
      ∃ extra,
        (entries.foldl (checkTickStep tick now) (done, hist, trig)).2.1 <:+
          hist ++ extra ∧
        (entries.foldl (checkTickStep tick now) (done, hist, trig)).2.2 =
          trig ++ extra := by
  intro entries
  induction entries with
  | nil =>
    intro done hist trig
    refine ⟨fun h => by simpa using h, [], by simp, by simp⟩
  | cons e rest ih =>
    intro done hist trig
    rcases e with ⟨id, r⟩
    rw [List.foldl_cons]
    rcases checkTickStep_shape tick now done hist trig id r with ⟨r', hr⟩ | ⟨r', ta, hr⟩
    · rw [hr]
      exact ih _ hist trig
    · rw [hr]
      obtain ⟨hlen, extra, hsuf, htr⟩ :=
        ih (done ++ [(id, r')]) (appendBounded hist ta) (trig ++ [ta])
      refine ⟨fun _ => hlen (appendBounded_length _ _), ta :: extra, ?_, ?_⟩
      · apply hsuf.trans
        have hstep := suffix_append_same (appendBounded_suffix hist ta) extra
        apply hstep.trans
        rw [List.append_assoc]
        exact List.suffix_refl _
      · rw [htr, List.append_assoc]
        rfl

theorem checkAnalytics_fold_spec (snap : AnalyticsSnapshot) (now : String) :
    ∀ (entries : List (String × AlertRule)) (done : List (String × AlertRule))
      (hist trig : List TriggeredAlert),
      (hist.length ≤ 100 →
        (entries.foldl (checkAnalyticsStep snap now) (done, hist, trig)).2.1.length ≤ 100) ∧
      ∃ extra,
        (entries.foldl (checkAnalyticsStep snap now) (done, hist, trig)).2.1 <:+
          hist ++ extra ∧
        (entries.foldl (checkAnalyticsStep snap now) (done, hist, trig)).2.2 =
          trig ++ extra := by
  intro entries
  induction entries with
  | nil =>
    intro done hist trig
    refine ⟨fun h => by simpa using h, [], by simp, by simp⟩
  | cons e rest ih =>
    intro done hist trig
    rcases e with ⟨id, r⟩
    rw [List.foldl_cons]
    rcases checkAnalyticsStep_shape snap now done hist trig id r with ⟨r', hr⟩ | ⟨r', ta, hr⟩
    · rw [hr]
      exact ih _ hist trig
    · rw [hr]
      obtain ⟨hlen, extra, hsuf, htr⟩ :=
        ih (done ++ [(id, r')]) (appendBounded hist ta) (trig ++ [ta])
      refine ⟨fun _ => hlen (appendBounded_length _ _), ta :: extra, ?_, ?_⟩
      · apply hsuf.trans
        have hstep := suffix_append_same (appendBounded_suffix hist ta) extra
        apply hstep.trans
        rw [List.append_assoc]
        exact List.suffix_refl _
      · rw [htr, List.append_assoc]
        rfl

/-- C8: after any `check_tick` or `check_analytics` call on a state whose
history held at most 100 entries, the history still holds at most 100
entries, and it is a contiguous suffix of the old history followed by the
alerts triggered in this call in order — only the oldest entries are
dropped, the order of the rest is preserved. -/
theorem c8_history_bounded_fifo (st : AlertState) (tick : TickData)
    (snap : AnalyticsSnapshot) (now : String) (h : st.history.length ≤ 100) :
    ((checkTick st tick now).1.history.length ≤ 100 ∧
      (checkTick st tick now).1.history <:+
        st.history ++ (checkTick st tick now).2) ∧
    ((checkAnalytics st snap now).1.history.length ≤ 100 ∧
      (checkAnalytics st snap now).1.history <:+
        st.history ++ (checkAnalytics st snap now).2) := by
  constructor
  · obtain ⟨hlen, extra, hsuf, htr⟩ :=
      checkTick_fold_spec tick now st.alerts [] st.history []
    refine ⟨hlen h, ?_⟩
    show (st.alerts.foldl (checkTickStep tick now) ([], st.history, [])).2.1 <:+ _
    have : (checkTick st tick now).2 = extra := by
      show (st.alerts.foldl (checkTickStep tick now) ([], st.history, [])).2.2 = extra
      simpa using htr
    rw [this]
    exact hsuf
  · obtain ⟨hlen, extra, hsuf, htr⟩ :=
      checkAnalytics_fold_spec snap now st.alerts [] st.history []
    refine ⟨hlen h, ?_⟩
    show (st.alerts.foldl (checkAnalyticsStep snap now) ([], st.history, [])).2.1 <:+ _
    have : (checkAnalytics st snap now).2 = extra := by
      show (st.alerts.foldl (checkAnalyticsStep snap now) ([], st.history, [])).2.2 = extra
      simpa using htr
    rw [this]
    exact hsuf

/-- Witness inputs for C8: one active rule, a triggering tick and snapshot. -/
def c8Rule : AlertRule :=
  { symbol := "BTCUSDT", metric := "price", condition := ">", threshold := 100,
    message := "m", createdAt := "t0", active := true, triggerCount := 0,
    lastTriggered := none }

/-- Alert state with one rule and empty history. -/
def c8St : AlertState := { alerts := [("a1", c8Rule)], history := [] }

/-- A tick that triggers `c8Rule`. -/
def c8TickData : TickData :=
  { timestamp := "t1", symbol := "BTCUSDT", price := 150, quantity := 1 }

/-- A snapshot carrying a current price that triggers `c8Rule`. -/
def c8Snap : AnalyticsSnapshot :=
  { symbol := some "BTCUSDT", zscore := some 3, rsi := none, volatility := none,
    priceCurrent := some 150 }

/-- Witness for C8 at a concrete state, tick and snapshot. -/
theorem c8_history_witness :
    ((checkTick c8St c8TickData "T1").1.history.length ≤ 100 ∧
      (checkTick c8St c8TickData "T1").1.history <:+
        c8St.history ++ (checkTick c8St c8TickData "T1").2) ∧
    ((checkAnalytics c8St c8Snap "T1").1.history.length ≤ 100 ∧
      (checkAnalytics c8St c8Snap "T1").1.history <:+
        c8St.history ++ (checkAnalytics c8St c8Snap "T1").2) :=
  c8_history_bounded_fifo c8St c8TickData c8Snap "T1" (by simp [c8St])

/-! ## C9: remove_alert is total and exact -/

theorem erasePKey_eq_filter (l : List (String × AlertRule)) (id : String)
    (h : (l.map Prod.fst).Nodup) :
    l.eraseP (fun e => e.1 == id) = l.filter (fun e => !(e.1 == id)) := by
  induction l with
  | nil => rfl
  | cons e rest ih =>
    rcases e with ⟨k, v⟩
    rw [List.map_cons, List.nodup_cons] at h
    obtain ⟨hk, hrest⟩ := h
    by_cases hkid : k = id
    · subst hkid
      rw [List.eraseP_cons_of_pos (by simp), List.filter_cons]
      have hcond : (!((k, v).1 == k)) = false := by simp
      rw [hcond]
      simp only [Bool.false_eq_true, if_false]
      have hfix : rest.filter (fun e => !(e.1 == k)) = rest := by
        apply List.filter_eq_self.mpr
        intro a ha
        have hmem : a.1 ∈ rest.map Prod.fst := List.mem_map_of_mem Prod.fst ha
        have : a.1 ≠ k := fun hc => hk (hc ▸ hmem)
        simpa using this
      rw [hfix]
    · rw [List.eraseP_cons_of_neg (by simp [hkid]), List.filter_cons]
      have hcond : (!((k, v).1 == id)) = true := by simp [hkid]
      rw [hcond]
      simp only [if_true]
      rw [ih hrest]

/-- C9: `remove_alert` is total and exact — with an absent id the mapping is
unchanged (and no error is raised, the function is total); with a present id
exactly the entry with that key is removed and every other entry is kept. -/
theorem c9_remove_alert (alerts : List (String × AlertRule)) (id : String) :
    (alerts.lookup id = none → removeAlert alerts id = alerts) ∧
    ((alerts.map Prod.fst).Nodup → ∀ r, alerts.lookup id = some r →
      removeAlert alerts id = alerts.filter (fun e => !(e.1 == id))) := by
  constructor
  · intro h
    unfold removeAlert
    rw [h]
    rfl
  · intro hnd r h
    unfold removeAlert
    rw [h]
    simp only [Option.isSome_some, if_true]
    exact erasePKey_eq_filter alerts id hnd

/-- Two-rule mapping for the C9 witness. -/
def c9Alerts : List (String × AlertRule) :=
  [("a1", c8Rule), ("a2", { c8Rule with symbol := "ETHUSDT" })]

/-- Witness for C9: removing a missing id is a no-op; removing `a1` keeps
exactly the other entry. -/
theorem c9_remove_alert_witness :
    removeAlert c9Alerts "zzz" = c9Alerts ∧
    removeAlert c9Alerts "a1" = c9Alerts.filter (fun e => !(e.1 == "a1")) :=
  ⟨(c9_remove_alert c9Alerts "zzz").1 (by simp [c9Alerts, List.lookup]),
   (c9_remove_alert c9Alerts "a1").2 (by simp [c9Alerts]) c8Rule
     (by simp [c9Alerts, List.lookup])⟩

/-! ## C10: per-rule frame effect of check_tick / check_analytics -/

/-- The net effect of one `check_tick` iteration on a rule: bumped when it
triggers, untouched otherwise. -/
def tickUpdate (tick : TickData) (now : String) (r : AlertRule) : AlertRule :=
  if ruleTriggersOnTick r tick then bumpRule r now else r

/-- The net effect of one `check_analytics` iteration on a rule. -/
def analyticsUpdate (snap : AnalyticsSnapshot) (now : String) (r : AlertRule) :
    AlertRule :=
  if ruleTriggersOnAnalytics r snap then bumpRule r now else r

theorem checkTickStep_rules (tick : TickData) (now : String)
    (done : List (String × AlertRule)) (hist trig : List TriggeredAlert)
    (id : String) (r : AlertRule) :
    (checkTickStep tick now (done, hist, trig) (id, r)).1 =
      done ++ [(id, tickUpdate tick now r)] := by
  unfold checkTickStep
  dsimp only
  split_ifs with h1 h2
  · have ht : ruleTriggersOnTick r tick = false := by
      simp [ruleTriggersOnTick, h1]
    simp [tickUpdate, ht]
  · have hab : (r.symbol == tick.symbol) = false := by simp [h2]
    have ht : ruleTriggersOnTick r tick = false := by
      simp [ruleTriggersOnTick, hab]
    simp [tickUpdate, ht]
  · have ha : r.active = true := by
      revert h1
      cases r.active <;> simp
    have hs : r.symbol = tick.symbol := not_not.mp h2
    cases hmv : tickMetricValue r tick with
    | none =>
      have ht : ruleTriggersOnTick r tick = false := by
        simp [ruleTriggersOnTick, hmv]
      simp [tickUpdate, ht]
    | some v =>
      dsimp only
      split_ifs with h3
      · have ht : ruleTriggersOnTick r tick = true := by
          simp [ruleTriggersOnTick, hmv, h3, ha, hs]
        simp [tickUpdate, ht]
      · have ht : ruleTriggersOnTick r tick = false := by
          simp [ruleTriggersOnTick, hmv, h3]
        simp [tickUpdate, ht]

theorem checkAnalyticsStep_rules (snap : AnalyticsSnapshot) (now : String)
    (done : List (String × AlertRule)) (hist trig : List TriggeredAlert)
    (id : String) (r : AlertRule) :
    (checkAnalyticsStep snap now (done, hist, trig) (id, r)).1 =
      done ++ [(id, analyticsUpdate snap now r)] := by
  unfold checkAnalyticsStep
  dsimp only
  split_ifs with h1 h2
  · have ht : ruleTriggersOnAnalytics r snap = false := by
      simp [ruleTriggersOnAnalytics, h1]
    simp [analyticsUpdate, ht]
  · have hab : (snap.symbol == some r.symbol) = false := by simp [h2]
    have ht : ruleTriggersOnAnalytics r snap = false := by
      simp [ruleTriggersOnAnalytics, hab]
    simp [analyticsUpdate, ht]
  · have ha : r.active = true := by
      revert h1
      cases r.active <;> simp
    have hs : snap.symbol = some r.symbol := not_not.mp h2
    cases hmv : analyticsMetricValue r snap with
    | none =>
      have ht : ruleTriggersOnAnalytics r snap = false := by
        simp [ruleTriggersOnAnalytics, hmv]
      simp [analyticsUpdate, ht]
    | some v =>
      dsimp only
      split_ifs with h3
      · have ht : ruleTriggersOnAnalytics r snap = true := by
          simp [ruleTriggersOnAnalytics, hmv, h3, ha, hs]
        simp [analyticsUpdate, ht]
      · have ht : ruleTriggersOnAnalytics r snap = false := by
          simp [ruleTriggersOnAnalytics, hmv, h3]
        simp [analyticsUpdate, ht]

theorem checkTick_fold_rules (tick : TickData) (now : String) :
    ∀ (entries : List (String × AlertRule)) (done : List (String × AlertRule))
      (hist trig : List TriggeredAlert),
      (entries.foldl (checkTickStep tick now) (done, hist, trig)).1 =
        done ++ entries.map (fun e => (e.1, tickUpdate tick now e.2)) := by
  intro entries
  induction entries with
  | nil => intro done hist trig; simp
  | cons e rest ih =>
    intro done hist trig
    rcases e with ⟨id, r⟩
    rw [List.foldl_cons]
    rcases checkTickStep_shape tick now done hist trig id r with ⟨r', hr⟩ | ⟨r', ta, hr⟩
    · have h1 := checkTickStep_rules tick now done hist trig id r
      rw [hr] at h1 ⊢
      have h2 : (id, r') = (id, tickUpdate tick now r) := by
        have h3 : [(id, r')] = [(id, tickUpdate tick now r)] :=
          List.append_cancel_left h1
        simpa using h3
      rw [ih, h2, List.map_cons, List.append_assoc]
      rfl
    · have h1 := checkTickStep_rules tick now done hist trig id r
      rw [hr] at h1 ⊢
      have h2 : (id, r') = (id, tickUpdate tick now r) := by
        have h3 : [(id, r')] = [(id, tickUpdate tick now r)] :=
          List.append_cancel_left h1
        simpa using h3
      rw [ih, h2, List.map_cons, List.append_assoc]
      rfl

theorem checkAnalytics_fold_rules (snap : AnalyticsSnapshot) (now : String) :
    ∀ (entries : List (String × AlertRule)) (done : List (String × AlertRule))
      (hist trig : List TriggeredAlert),
      (entries.foldl (checkAnalyticsStep snap now) (done, hist, trig)).1 =
        done ++ entries.map (fun e => (e.1, analyticsUpdate snap now e.2)) := by
  intro entries
  induction entries with
  | nil => intro done hist trig; simp
  | cons e rest ih =>
    intro done hist trig
    rcases e with ⟨id, r⟩
    rw [List.foldl_cons]
    rcases checkAnalyticsStep_shape snap now done hist trig id r with
      ⟨r', hr⟩ | ⟨r', ta, hr⟩
    · have h1 := checkAnalyticsStep_rules snap now done hist trig id r
      rw [hr] at h1 ⊢
      have h2 : (id, r') = (id, analyticsUpdate snap now r) := by
        have h3 : [(id, r')] = [(id, analyticsUpdate snap now r)] :=
          List.append_cancel_left h1
        simpa using h3
      rw [ih, h2, List.map_cons, List.append_assoc]
      rfl
    · have h1 := checkAnalyticsStep_rules snap now done hist trig id r
      rw [hr] at h1 ⊢
      have h2 : (id, r') = (id, analyticsUpdate snap now r) := by
        have h3 : [(id, r')] = [(id, analyticsUpdate snap now r)] :=
          List.append_cancel_left h1
        simpa using h3
      rw [ih, h2, List.map_cons, List.append_assoc]
      rfl

theorem lookup_map_tickUpdate (tick : TickData) (now : String)
    (l : List (String × AlertRule)) (id : String) :
    (l.map (fun e => (e.1, tickUpdate tick now e.2))).lookup id =
      (l.lookup id).map (tickUpdate tick now) := by
  induction l with
  | nil => rfl
  | cons e rest ih =>
    rcases e with ⟨k, v⟩
    rw [List.map_cons]
    show ((k, tickUpdate tick now v) :: _).lookup id = _
    rw [List.lookup_cons, List.lookup_cons]
    cases h : (id == k)
    · simpa using ih
    · simp

theorem lookup_map_analyticsUpdate (snap : AnalyticsSnapshot) (now : String)
    (l : List (String × AlertRule)) (id : String) :
    (l.map (fun e => (e.1, analyticsUpdate snap now e.2))).lookup id =
      (l.lookup id).map (analyticsUpdate snap now) := by
  induction l with
  | nil => rfl
  | cons e rest ih =>
    rcases e with ⟨k, v⟩
    rw [List.map_cons]
    show ((k, analyticsUpdate snap now v) :: _).lookup id = _
    rw [List.lookup_cons, List.lookup_cons]
    cases h : (id == k)
    · simpa using ih
    · simp

/-- C10: on any `check_tick`/`check_analytics` call, a rule that does not
trigger — inactive, wrong symbol, unresolvable metric, or false condition —
is left with all fields untouched, while a triggering rule gets exactly
`trigger_count + 1` and a new `last_triggered`, all other fields unchanged. -/
theorem c10_rule_frame_effect (st : AlertState) (tick : TickData)
    (snap : AnalyticsSnapshot) (now : String) (id : String) (r : AlertRule)
    (h : st.alerts.lookup id = some r) :
    (ruleTriggersOnTick r tick = false →
      (checkTick st tick now).1.alerts.lookup id = some r) ∧
    (ruleTriggersOnTick r tick = true →
      (checkTick st tick now).1.alerts.lookup id = some (bumpRule r now)) ∧
    (ruleTriggersOnAnalytics r snap = false →
      (checkAnalytics st snap now).1.alerts.lookup id = some r) ∧
    (ruleTriggersOnAnalytics r snap = true →
      (checkAnalytics st snap now).1.alerts.lookup id = some (bumpRule r now)) ∧
    (bumpRule r now).triggerCount = r.triggerCount + 1 ∧
    (bumpRule r now).lastTriggered = some now ∧
    (bumpRule r now).symbol = r.symbol ∧
    (bumpRule r now).metric = r.metric ∧
    (bumpRule r now).condition = r.condition ∧
    (bumpRule r now).threshold = r.threshold ∧
    (bumpRule r now).message = r.message ∧
    (bumpRule r now).createdAt = r.createdAt ∧
    (bumpRule r now).active = r.active ∧
    (r.active = false → ruleTriggersOnTick r tick = false) ∧
    (r.symbol ≠ tick.symbol → ruleTriggersOnTick r tick = false) ∧
    (tickMetricValue r tick = none → ruleTriggersOnTick r tick = false) ∧
    (analyticsMetricValue r snap = none → ruleTriggersOnAnalytics r snap = false) := by
  have hT : (checkTick st tick now).1.alerts.lookup id =
      (st.alerts.lookup id).map (tickUpdate tick now) := by
    show (st.alerts.foldl (checkTickStep tick now) ([], st.history, [])).1.lookup id = _
    rw [checkTick_fold_rules tick now st.alerts [] st.history []]
    rw [List.nil_append]
    exact lookup_map_tickUpdate tick now st.alerts id
  have hA : (checkAnalytics st snap now).1.alerts.lookup id =
      (st.alerts.lookup id).map (analyticsUpdate snap now) := by
    show (st.alerts.foldl (checkAnalyticsStep snap now) ([], st.history, [])).1.lookup id = _
    rw [checkAnalytics_fold_rules snap now st.alerts [] st.history []]
    rw [List.nil_append]
    exact lookup_map_analyticsUpdate snap now st.alerts id
  rw [h] at hT hA
  refine ⟨?_, ?_, ?_, ?_, rfl, rfl, rfl, rfl, rfl, rfl, rfl, rfl, rfl, ?_, ?_, ?_, ?_⟩
  · intro htrig
    rw [hT]
    simp [tickUpdate, htrig]
  · intro htrig
    rw [hT]
    simp [tickUpdate, htrig]
  · intro htrig
    rw [hA]
    simp [analyticsUpdate, htrig]
  · intro htrig
    rw [hA]
    simp [analyticsUpdate, htrig]
  · intro hc
    simp [ruleTriggersOnTick, hc]
  · intro hc
    have : (r.symbol == tick.symbol) = false := by simp [hc]
    simp [ruleTriggersOnTick, this]
  · intro hc
    simp [ruleTriggersOnTick, hc]
  · intro hc
    simp [ruleTriggersOnAnalytics, hc]

/-- Rule for the C10 witness. -/
def c10Rule : AlertRule :=
  { symbol := "ETHUSDT", metric := "price", condition := ">", threshold := 100,
    message := "m", createdAt := "t0", active := true, triggerCount := 3,
    lastTriggered := none }

/-- One-rule state for the C10 witness. -/
def c10St : AlertState := { alerts := [("b1", c10Rule)], history := [] }

/-- A tick that triggers `c10Rule`. -/
def c10Tick : TickData :=
  { timestamp := "t1", symbol := "ETHUSDT", price := 150, quantity := 1 }

/-- A snapshot for another symbol (the rule does not trigger on it). -/
def c10Snap : AnalyticsSnapshot :=
  { symbol := some "BTCUSDT", zscore := none, rsi := none, volatility := none,
    priceCurrent := some 150 }

/-- Witness for C10: the triggering tick bumps the rule's count to 4, and
the non-matching snapshot leaves the rule unchanged. -/
theorem c10_rule_frame_effect_witness :
    (checkTick c10St c10Tick "T2").1.alerts.lookup "b1" =
      some (bumpRule c10Rule "T2") ∧
    (checkAnalytics c10St c10Snap "T2").1.alerts.lookup "b1" = some c10Rule := by
  have h := c10_rule_frame_effect c10St c10Tick c10Snap "T2" "b1" c10Rule
    (by simp [c10St, List.lookup])
  refine ⟨h.2.1 ?_, h.2.2.1 ?_⟩
  · norm_num [ruleTriggersOnTick, tickMetricValue, evaluateCondition, c10Rule, c10Tick]
  · norm_num [ruleTriggersOnAnalytics, c10Rule, c10Snap]
    intro hcontra
    exact absurd hcontra (by decide)
